import Mathlib

/-!
Verification of the `staged` repository's specification claims.

The Python sources are shallowly embedded: strings are Lean `String`s
(manipulated through their `List Char` data), Python dicts become
association lists with last-insertion-wins lookup, and each script-level
function is translated structurally from its source.  All definitions are
executable.
-/

set_option maxRecDepth 4096

/-! ## Python string primitives -/

/-- Python `str.strip()` whitespace set (ASCII fragment relevant here). -/
def isPySpace (c : Char) : Bool :=
  c = (' ') || c = ('\t') || c = ('\n') || c = ('\r') || c = (Char.ofNat 11) || c = (Char.ofNat 12)

/-- Python `str.strip()` on the character list: drop whitespace at both ends. -/
def pyStripL (s : List Char) : List Char :=
  ((s.dropWhile isPySpace).reverse.dropWhile isPySpace).reverse

/-- Python `str.strip()` on a `String`. -/
def pyStrip (s : String) : String :=
  String.mk (pyStripL s.data)

/-- Strip a given character (Python `str.strip('_')` / `strip('-')`). -/
def pyStripCharL (c : Char) (s : List Char) : List Char :=
  ((s.dropWhile (fun d => d = c)).reverse.dropWhile (fun d => d = c)).reverse

/-- Python `str.lower()` (ASCII). -/
def pyLower (s : String) : String :=
  String.mk (s.data.map Char.toLower)

/-- `leadsWith pat s` is true when `pat` occurs at the front of `s`
(Python `str.startswith`). -/
def leadsWith : List Char → List Char → Bool
  | [], _ => true
  | _ :: _, [] => false
  | a :: as, b :: bs => a = b && leadsWith as bs

/-- Python `str.replace(pat, rep)`: left-to-right, non-overlapping
replacement of every occurrence; fuel-driven worker (an empty pattern
leaves the string unchanged — the sources never pass one). -/
def pyReplaceGo (pat rep : List Char) : Nat → List Char → List Char
  | _, [] => []
  | 0, s => s
  | fuel + 1, c :: rest =>
    if pat ≠ [] ∧ leadsWith pat (c :: rest) then
      rep ++ pyReplaceGo pat rep fuel ((c :: rest).drop pat.length)
    else
      c :: pyReplaceGo pat rep fuel rest

/-- Python `str.replace` entry point: the fuel `s.length` always suffices
because each step consumes at least one character. -/
def pyReplaceL (pat rep s : List Char) : List Char :=
  pyReplaceGo pat rep s.length s

/-- Python `str.replace` on `String`s. -/
def pyReplace (s pat rep : String) : String :=
  String.mk (pyReplaceL pat.data rep.data s.data)

/-- Python `str.split()` (no argument): split on whitespace runs,
dropping empty pieces.  `cur` holds the current word, reversed. -/
def pySplitWsGo : List Char → List Char → List (List Char)
  | [], cur => if cur = [] then [] else [cur.reverse]
  | c :: t, cur =>
    if isPySpace c then
      if cur = [] then pySplitWsGo t [] else cur.reverse :: pySplitWsGo t []
    else
      pySplitWsGo t (c :: cur)

/-- Python `str.split()` with no argument. -/
def pySplitWs (s : String) : List String :=
  (pySplitWsGo s.data []).map String.mk

/-- Python `str.split(sep)` for a one-character separator: splits at every
occurrence and keeps empty pieces. -/
def pySplitCharGo (sep : Char) : List Char → List Char → List (List Char)
  | [], cur => [cur.reverse]
  | c :: t, cur =>
    if c = sep then cur.reverse :: pySplitCharGo sep t []
    else pySplitCharGo sep t (c :: cur)

/-- Python `str.split(sep)` (single-character separator) on `String`s. -/
def pySplitChar (sep : Char) (s : String) : List String :=
  (pySplitCharGo sep s.data []).map String.mk

/-- Substring test on character lists (Python `in` on strings). -/
def hasSub (needle : List Char) : List Char → Bool
  | [] => needle = []
  | c :: rest => leadsWith needle (c :: rest) || hasSub needle rest

/-- Substring test on `String`s. -/
def strHasSub (s needle : String) : Bool :=
  hasSub needle.data s.data

/-- Python dict lookup over an association list built by appending new
bindings: the *last* binding of a key wins. -/
def dictFind {κ ν : Type} [DecidableEq κ] (m : List (κ × ν)) (k : κ) : Option ν :=
  match m with
  | [] => none
  | (k₀, v₀) :: t =>
    match dictFind t k with
    | some v => some v
    | none => if k₀ = k then some v₀ else none

/-- Python dict assignment `m[k] = v`: overwrite in place, else append. -/
def dictUpsert {κ ν : Type} [DecidableEq κ] (m : List (κ × ν)) (k : κ) (v : ν) :
    List (κ × ν) :=
  match m with
  | [] => [(k, v)]
  | (k₀, v₀) :: t => if k₀ = k then (k, v) :: t else (k₀, v₀) :: dictUpsert t k v

/-! ## `safe_id` and GUPRI minting (`generate_cmc_ttl.py` / `generate_cmc_ttl_gupri.py`) -/

/-- A character kept verbatim by `re.sub(r"[^a-z0-9]+", "-", text)`. -/
def isLowerAlnum (c : Char) : Bool :=
  (('a') ≤ c && c ≤ ('z')) || (('0') ≤ c && c ≤ ('9'))

/-- Worker for `reSubRuns`; `inRun` records whether the previous character
was part of a run already replaced by `repl`. -/
def reSubRunsGo (keep : Char → Bool) (repl : Char) : List Char → Bool → List Char
  | [], _ => []
  | c :: t, inRun =>
    if keep c then c :: reSubRunsGo keep repl t false
    else if inRun then reSubRunsGo keep repl t true
    else repl :: reSubRunsGo keep repl t true

/-- `re.sub(rx, repl, s)` for a negated-class-plus pattern: every maximal
run of characters failing `keep` becomes one copy of `repl`. -/
def reSubRuns (keep : Char → Bool) (repl : Char) (s : List Char) : List Char :=
  reSubRunsGo keep repl s false

/-- `safe_id` from both TTL generators: strip, lowercase, collapse
non-alphanumeric runs to `-`, trim `-`, defaulting to `"unnamed"`. -/
def safe_id (text : String) : String :=
  let t := pyLower (pyStrip text)
  let u := pyStripCharL ('-') (reSubRuns isLowerAlnum ('-') t.data)
  if u = [] then ("unnamed") else String.mk u

/-- A character kept verbatim by `re.sub(r'[^a-zA-Z0-9]+', '_', hint)`. -/
def isAlnumAny (c : Char) : Bool :=
  (('a') ≤ c && c ≤ ('z')) || (('A') ≤ c && c ≤ ('Z')) || (('0') ≤ c && c ≤ ('9'))

/-- The readable-hint cleanup inside `create_gupri`:
`re.sub(r'[^a-zA-Z0-9]+', '_', readable_hint)[:20].strip('_')`. -/
def cleanHint (hint : String) : String :=
  String.mk (pyStripCharL ('_') ((reSubRuns isAlnumAny ('_') hint.data).take 20))

/-- The composite cache key of `create_gupri`:
`f"{entity_type}:{':'.join(str(k) for k in key_components if k)}"`. -/
def cacheKey (entity_type : String) (key_components : List String) : String :=
  entity_type ++ (":") ++ String.intercalate (":") (key_components.filter (fun k => k ≠ ""))

/-- One hex digit. -/
def hexDigit (n : Nat) : Char :=
  if n < 10 then Char.ofNat (48 + n) else Char.ofNat (87 + n)

/-- `uuid.uuid5(CMC_NAMESPACE_UUID, cache_key)` truncated to its first 8 hex
characters, as used by `create_gupri`.  The library computes a SHA-1-based
deterministic UUID; every claim proved below depends only on this being a
fixed deterministic function of the cache key, so the digest itself is
modelled by an (executable, deterministic) stand-in hash. -/
def uuid5hex8 (cache_key : String) : String :=
  let h := cache_key.data.foldl (fun a c => (a * 131 + c.toNat) % 4294967296) 5381
  String.mk ((List.range 8).map (fun i => hexDigit (h / 16 ^ (7 - i) % 16)))

/-- The persistent GUPRI mapping (`ID_MAPPINGS`): cache key → identifier. -/
abbrev GupriMappings : Type := List (String × String)

/-- `create_gupri(entity_type, *key_components, readable_hint=...)` from
`generate_cmc_ttl_gupri.py`, with the module-level `ID_MAPPINGS` dict made
an explicit argument and result.  Returns the cached identifier when the
cache key is mapped; otherwise mints, caches and returns a fresh one. -/
def create_gupri (m : GupriMappings) (entity_type : String)
    (key_components : List String) (readable_hint : Option String) :
    String × GupriMappings :=
  let ck := cacheKey entity_type key_components
  match dictFind m ck with
  | some g => (g, m)
  | none =>
    let eu := uuid5hex8 ck
    let hint := readable_hint.getD ("")
    let g :=
      if hint ≠ "" then
        ("ex:") ++ entity_type ++ ("_") ++ cleanHint hint ++ ("_") ++ eu
      else
        ("ex:") ++ entity_type ++ ("_") ++ eu
    (g, m ++ [(ck, g)])

/-- `save_id_mappings`: `json.dump(ID_MAPPINGS, f, indent=2, sort_keys=True)`.
Serializing a string-to-string dict to JSON and parsing it back recovers the
same key-to-value mapping, so persistence is modelled as the identity on
`GupriMappings`. -/
def save_id_mappings (m : GupriMappings) : GupriMappings := m

/-- `load_id_mappings`: reads the JSON side-file back into `ID_MAPPINGS`;
see `save_id_mappings` for the round-trip modelling. -/
def load_id_mappings (m : GupriMappings) : GupriMappings := m

/-! ## Rows and column resolution -/

/-- A CSV row: column name to string value, with Python-dict semantics
(`dictFind`). -/
abbrev Row : Type := List (String × String)

/-- `OFFICIAL_COLS`, identical in `generate_cmc_ttl.py` and
`generate_cmc_ttl_gupri.py`: canonical field name to accepted header
spellings, in priority order. -/
def OFFICIAL_COLS : List (String × List String) :=
  [ (("Value Stream"), [("Value Stream"), ("Drop Down")])
  , (("Stage Gate"), [("Stage Gate"), ("Drop Down.1")])
  , (("Stage Gate Description"), [("Stage Gate Description"), ("Drop Down.2")])
  , (("Functional Area/Subteam"), [("Functional Area/Subteam"), ("Drop Down.3")])
  , (("Category"), [("Category"), ("Unnamed: 4")])
  , (("Deliverable"), [("Deliverable"), ("Unnamed: 5")])
  , (("Explanation/Translation"),
      [("Explanation/Translation"), ("Explanation/\nTranslation"), ("Unnamed: 6")])
  , (("Owner"), [("Owner"), ("Unnamed: 7")])
  , (("Status"), [("Status"), ("Drop Down.4")])
  , (("To be presented at"), [("To be presented at"), ("Drop Down.5")])
  , (("Plan date"), [("Plan date"), ("Plan \ndate"), ("251031 - added column from Synthetics")])
  , (("Actual date"),
      [("Actual date"), ("Actual\ndate"), ("251031 - added column from Synthetics .1")])
  , (("Comments/Document reference"),
      [("Comments/Document reference"), ("Comments/\nDocument reference"),
       ("251031 - added column from Synthetics .2")])
  ]

/-- Key-presence test for a row (Python `name in row`). -/
def rowHas (row : Row) (name : String) : Bool :=
  (dictFind row name).isSome

/-- `get_value` from `generate_cmc_ttl.py` (lines 100-104): return
`row.get(name, "")` for the first alias that is a key of the row. -/
def get_value (row : Row) (logical_name : String) : String :=
  go ((dictFind OFFICIAL_COLS logical_name).getD [])
where
  go : List String → String
    | [] => ""
    | name :: rest =>
      if rowHas row name then (dictFind row name).getD ("") else go rest

/-- `get_value` from `generate_cmc_ttl_gupri.py` (lines 156-164): skip
aliases whose value is missing or empty; return the first non-empty value
stripped. -/
def get_value_gupri (row : Row) (col_name : String) : String :=
  go ((dictFind OFFICIAL_COLS col_name).getD [])
where
  go : List String → String
    | [] => ""
    | name :: rest =>
      if rowHas row name then
        let val := (dictFind row name).getD ("")
        if val ≠ "" then pyStrip val else go rest
      else go rest

/-- Spec-side column resolution, following the claim's words: "the first
non-absent value (empty string represents absent) found among the field's
registered header aliases taken in their registered order", else the empty
string. -/
def specGetValue (row : Row) (logical_name : String) : String :=
  go ((dictFind OFFICIAL_COLS logical_name).getD [])
where
  go : List String → String
    | [] => ""
    | name :: rest =>
      match dictFind row name with
      | some v => if v ≠ "" then v else go rest
      | none => go rest

/-! ## Turtle literal escaping -/

/-- `escape_turtle_literal` from `generate_cmc_ttl.py` (lines 79-83): escape
backslash, double quote, CR/LF (both to `\n`) and tab; the caller wraps the
result in double quotes. -/
def escape_turtle_literal (value : String) : String :=
  pyReplace
    (pyReplace
      (pyReplace
        (pyReplace (pyReplace value ("\\") ("\\\\")) ("\"") ("\\\""))
        ("\r") ("\\n"))
      ("\n") ("\\n"))
    ("\t") ("\\t")

/-- `escape_turtle_literal` from `generate_cmc_ttl_gupri.py` (lines 132-153)
for string input: a value containing CR or LF becomes a triple-quoted block
escaping backslash and `"""` only; otherwise a single-line literal escaping
backslash, quote, tab and CR.  Both branches return the quoted literal. -/
def escape_turtle_literal_gupri (value : String) : String :=
  if value.data.contains ('\n') || value.data.contains ('\r') then
    ("\"\"\"") ++
      pyReplace (pyReplace value ("\\") ("\\\\")) ("\"\"\"") ("\\\"\\\"\\\"") ++
    ("\"\"\"")
  else
    ("\"") ++
      pyReplace
        (pyReplace
          (pyReplace (pyReplace value ("\\") ("\\\\")) ("\"") ("\\\""))
          ("\t") ("\\t"))
        ("\r") ("\\r") ++
    ("\"")

/-! ## A conformant Turtle string-literal parser

Modelled from the W3C Turtle 1.1 grammar terminals `STRING_LITERAL_QUOTE`
(rule 22) and `STRING_LITERAL_LONG_QUOTE` (rule 25) together with `ECHAR`
(rule 159s) and `UCHAR` (rule 26).  `parseTurtleLiteral` accepts exactly
the inputs that are one complete string literal token and returns the
string value it denotes. -/

/-- `ECHAR` decoding: the character following a backslash. -/
def unescChar (c : Char) : Option Char :=
  if c = ('t') then some ('\t')
  else if c = ('b') then some (Char.ofNat 8)
  else if c = ('n') then some ('\n')
  else if c = ('r') then some ('\r')
  else if c = ('f') then some (Char.ofNat 12)
  else if c = ('"') then some ('"')
  else if c = ('\'') then some ('\'')
  else if c = ('\\') then some ('\\')
  else none

/-- Hex digit value for `UCHAR`. -/
def hexVal (c : Char) : Option Nat :=
  if ('0') ≤ c && c ≤ ('9') then some (c.toNat - 48)
  else if ('a') ≤ c && c ≤ ('f') then some (c.toNat - 87)
  else if ('A') ≤ c && c ≤ ('F') then some (c.toNat - 55)
  else none

/-- `\uXXXX` decoding. -/
def hex4 (a b c d : Char) : Option Char :=
  match hexVal a, hexVal b, hexVal c, hexVal d with
  | some x, some y, some z, some w => some (Char.ofNat (((x * 16 + y) * 16 + z) * 16 + w))
  | _, _, _, _ => none

/-- `\UXXXXXXXX` decoding. -/
def hex8 (a b c d e f g h : Char) : Option Char :=
  match hex4 a b c d, hex4 e f g h with
  | some hi, some lo => some (Char.ofNat (hi.toNat * 65536 + lo.toNat))
  | _, _ => none

/-- `\uXXXX` chomping: four hex digits off the front. -/
def uChomp4 : List Char → Option (Char × List Char)
  | h₁ :: h₂ :: h₃ :: h₄ :: tl => (hex4 h₁ h₂ h₃ h₄).map (fun v => (v, tl))
  | _ => none

/-- `\UXXXXXXXX` chomping: eight hex digits off the front. -/
def uChomp8 : List Char → Option (Char × List Char)
  | h₁ :: h₂ :: h₃ :: h₄ :: h₅ :: h₆ :: h₇ :: h₈ :: tl =>
    (hex8 h₁ h₂ h₃ h₄ h₅ h₆ h₇ h₈).map (fun v => (v, tl))
  | _ => none

/-- What follows a backslash: an `ECHAR` or a `UCHAR`, returning the
denoted character and the remaining input. -/
def parseEsc : List Char → Option (Char × List Char)
  | [] => none
  | d :: tl =>
    if d = ('u') then uChomp4 tl
    else if d = ('U') then uChomp8 tl
    else (unescChar d).map (fun v => (v, tl))

/-- Body of a `STRING_LITERAL_QUOTE` after the opening quote: raw
characters other than `"`, `\`, LF, CR, plus `ECHAR`/`UCHAR` escapes,
closed by `"` which must end the input.  Fuel-driven; `s.length` fuel
always suffices. -/
def goSF : Nat → List Char → Option (List Char)
  | _, [] => none
  | 0, _ :: _ => none
  | fuel + 1, c :: rest =>
    if c = ('"') then (if rest = [] then some [] else none)
    else if c = ('\\') then
      (parseEsc rest).bind (fun p => (goSF fuel p.2).map (fun t => p.1 :: t))
    else if c = ('\n') || c = ('\r') then none
    else (goSF fuel rest).map (fun t => c :: t)

/-- Short-literal body entry point. -/
def goS (s : List Char) : Option (List Char) :=
  goSF s.length s

/-- Body of a `STRING_LITERAL_LONG_QUOTE` after the opening `"""`: each
iteration takes at most two quotes followed by a raw character (any but
`"` and `\`) or an escape; a run of three quotes closes the literal and
must end the input.  Fuel-driven; `s.length` fuel always suffices. -/
def goLF : Nat → List Char → Option (List Char)
  | _, [] => none
  | 0, _ :: _ => none
  | fuel + 1, c :: rest =>
    if c = ('"') then
      if leadsWith [('"'), ('"')] rest then (if rest = [('"'), ('"')] then some [] else none)
      else if leadsWith [('"')] rest then
        (goLF fuel (rest.drop 1)).map (fun t => ('"') :: ('"') :: t)
      else (goLF fuel rest).map (fun t => ('"') :: t)
    else if c = ('\\') then
      (parseEsc rest).bind (fun p => (goLF fuel p.2).map (fun t => p.1 :: t))
    else (goLF fuel rest).map (fun t => c :: t)

/-- Long-literal body entry point. -/
def goL (s : List Char) : Option (List Char) :=
  goLF s.length s

/-- Parse a complete Turtle string literal (double-quoted form): `"""…"""`
long literals and `"…"` single-line literals. -/
def parseTurtleLiteral : List Char → Option (List Char)
  | [] => none
  | c :: rest =>
    if c = ('"') then
      if leadsWith [('"'), ('"')] rest then goL (rest.drop 2)
      else goS rest
    else none

/-- String-level wrapper: the value denoted by a complete Turtle literal. -/
def parseTurtleLiteralS (s : String) : Option String :=
  (parseTurtleLiteral s.data).map String.mk

/-! ## Helper characterizations of the escaping chains -/

/-- Per-character form of the single-line escaping in
`escape_turtle_literal_gupri` (no LF/CR present in that branch). -/
def escCharGupri (c : Char) : List Char :=
  if c = ('\\') then [('\\'), ('\\')]
  else if c = ('"') then [('\\'), ('"')]
  else if c = ('\t') then [('\\'), ('t')]
  else if c = ('\r') then [('\\'), ('r')]
  else [c]

/-- Per-character form of `escape_turtle_literal` (CR and LF both map to
the `\\n` escape). -/
def escCharTtl (c : Char) : List Char :=
  if c = ('\\') then [('\\'), ('\\')]
  else if c = ('"') then [('\\'), ('"')]
  else if c = ('\r') then [('\\'), ('n')]
  else if c = ('\n') then [('\\'), ('n')]
  else if c = ('\t') then [('\\'), ('t')]
  else [c]

/-- Doubling of backslashes (`value.replace('\\', '\\\\')`), per character. -/
def bsDouble (c : Char) : List Char :=
  if c = ('\\') then [('\\'), ('\\')] else [c]

/-- Run-structured form of the triple-quoted escaping body: double each
backslash, turn each (leftmost-first) `"""` into `\"\"\"`. -/
def esc1 (c : Char) : List Char :=
  if c = ('\\') then [('\\'), ('\\')] else [c]

/-- Run-structured triple-quote escaping: double each backslash, turn each
leftmost-first `"""` into `\\"\\"\\"`. -/
def escLong : List Char → List Char
  | [] => []
  | [c] => esc1 c
  | [c, c₂] => esc1 c ++ escLong [c₂]
  | c :: c₂ :: c₃ :: t =>
    if c = ('"') ∧ c₂ = ('"') ∧ c₃ = ('"') then
      ('\\') :: ('"') :: ('\\') :: ('"') :: ('\\') :: ('"') :: escLong t
    else esc1 c ++ escLong (c₂ :: c₃ :: t)

/-! ## CSV extraction (`read_csv_second_row_headers`, `generate_cmc_ttl.py` 86-97) -/

/-- Normalization of one data row against the header list:
`(r + [""]*len(headers))[:len(headers)]` zipped with the headers, values
`(v or "").strip()`. -/
def normRow (headers : List String) (r : List String) : Row :=
  (headers.zip ((r ++ List.replicate headers.length ("")).take headers.length)).map
    (fun p => (p.1, pyStrip p.2))

/-- `read_csv_second_row_headers`: headers live on the second CSV record,
data starts at the third; fewer than two records yields `([], [])`.  The
input is the list of records produced by `csv.reader`. -/
def read_csv_second_row_headers (records : List (List String)) :
    List String × List Row :=
  match records with
  | r₀ :: r₁ :: rest =>
    let _ := r₀
    let headers := r₁.map pyStrip
    (headers, rest.map (normRow headers))
  | _ => ([], [])

/-! ## Stage descriptions (`build_stage_info`, `generate_cmc_ttl.py` 107-118) -/

/-- `build_stage_info`: walk the rows, keeping for each
`(safe_id stream, safe_id stage)` key the first non-empty description. -/
def build_stage_info_go : List Row → List ((String × String) × String) →
    List ((String × String) × String)
  | [], info => info
  | row :: rest, info =>
    let stream := get_value row ("Value Stream")
    let stage := get_value row ("Stage Gate")
    let desc := get_value row ("Stage Gate Description")
    if stream = "" || stage = "" then build_stage_info_go rest info
    else
      let key := (safe_id stream, safe_id stage)
      if (dictFind info key).isNone && desc ≠ "" then
        build_stage_info_go rest (info ++ [(key, desc)])
      else build_stage_info_go rest info

/-- `build_stage_info` entry point. -/
def build_stage_info (rows : List Row) : List ((String × String) × String) :=
  build_stage_info_go rows []

/-- Spec-side description choice, following the claim's words: the first
non-empty `Stage Gate Description` among the given stage's rows in row
order (a stage's rows being those whose slugged
`(value stream, stage number)` key matches and that carry both fields). -/
def specFirstStageDesc : List Row → (String × String) → Option String
  | [], _ => none
  | row :: rest, key =>
    let stream := get_value row ("Value Stream")
    let stage := get_value row ("Stage Gate")
    let desc := get_value row ("Stage Gate Description")
    if stream ≠ "" && stage ≠ "" && (safe_id stream, safe_id stage) = key && desc ≠ "" then
      some desc
    else specFirstStageDesc rest key

/-! ## Stage emission (`emit_stage_blocks`, `generate_cmc_ttl.py` 121-155) -/

/-- Worker for `emit_stage_blocks`: produces the `ttl_lines` entries and the
stage count, threading the `seen_stages` keys. -/
def emit_stage_blocks_go : List Row → List (String × String) → List String × Nat
  | [], _ => ([], 0)
  | row :: rest, seen =>
    let value_stream := get_value row ("Value Stream")
    let stage_num := get_value row ("Stage Gate")
    let stage_desc := get_value row ("Stage Gate Description")
    if value_stream = "Value Stream" && stage_num = "Stage Gate" then
      emit_stage_blocks_go rest seen
    else if stage_num = "" then emit_stage_blocks_go rest seen
    else if seen.contains (value_stream, stage_num) then emit_stage_blocks_go rest seen
    else
      let stream_id := safe_id (if value_stream = "" then ("generic") else value_stream)
      let stage_id := safe_id stage_num
      let stage_iri := ("ex:Stage-") ++ stream_id ++ ("-") ++ stage_id
      let plan_iri := ("ex:Plan-") ++ stream_id ++ ("-") ++ stage_id
      let gate_iri := ("ex:Gate-") ++ stream_id ++ ("-") ++ stage_id
      let spec_iri := ("ex:Spec-") ++ stream_id ++ ("-") ++ stage_id
      let label := if stage_desc = "" then ("Stage ") ++ stage_num else stage_desc
      let l₁ := stage_iri ++ (" a ex:Stage ; rdfs:label \"") ++ escape_turtle_literal label ++
        ("\" ; ex:hasPlan ") ++ plan_iri ++ (" ; ex:hasGate ") ++ gate_iri ++ (" .\n")
      let l₂ := stage_iri ++ (" ex:hasSpecification ") ++ spec_iri ++ (" .\n")
      let l₃ := plan_iri ++ (" a ex:StagePlan ; rdfs:label \"Plan for ") ++
        escape_turtle_literal label ++ ("\" .\n")
      let l₄ := gate_iri ++ (" a ex:StageGate ; rdfs:label \"Gate for ") ++
        escape_turtle_literal label ++ ("\" .\n")
      let out := emit_stage_blocks_go rest (seen ++ [(value_stream, stage_num)])
      (l₁ :: l₂ :: l₃ :: l₄ :: out.1, out.2 + 1)

/-- `emit_stage_blocks` as the list of emitted `ttl_lines` plus the count
(the source returns their concatenation; see `emit_stage_blocks`). -/
def emit_stage_blocks_lines (rows : List Row) : List String × Nat :=
  emit_stage_blocks_go rows []

/-- `emit_stage_blocks`: joined TTL text and stage count. -/
def emit_stage_blocks (rows : List Row) : String × Nat :=
  ((emit_stage_blocks_lines rows).1.foldl (· ++ ·) (""), (emit_stage_blocks_lines rows).2)

/-! ## Specification/deliverable emission
(`emit_specs_and_deliverables`, `generate_cmc_ttl.py` 158-238) -/

/-- Agent declarations emitted after a QA triple: one declaration line per
owner whose `ex:Agent-` IRI is not yet in `declared_agents`. -/
def declareAgents : List String → List String → List String × List String
  | [], declared => ([], declared)
  | part :: rest, declared =>
    let agent_iri := ("ex:Agent-") ++ safe_id part
    if declared.contains agent_iri then declareAgents rest declared
    else
      let line := agent_iri ++ (" a prov:Agent ; rdfs:label \"") ++
        escape_turtle_literal part ++ ("\" .\n")
      let out := declareAgents rest (declared ++ [agent_iri])
      (line :: out.1, out.2)

/-- Worker for `emit_specs_and_deliverables`: produces the `ttl_lines`
entries and the count, threading `declared_agents` and `declared_specs`. -/
def emit_specs_and_deliverables_go :
    List Row → List ((String × String) × String) → List String → List String →
    List String × Nat
  | [], _, _, _ => ([], 0)
  | row :: rest, stage_info, agents, specs =>
    let value_stream := get_value row ("Value Stream")
    let stage_num := get_value row ("Stage Gate")
    let deliverable := get_value row ("Deliverable")
    if stage_num = "" || value_stream = "" then
      emit_specs_and_deliverables_go rest stage_info agents specs
    else
      let stream_id := safe_id (if value_stream = "" then ("generic") else value_stream)
      let stage_id := safe_id stage_num
      let spec_iri := ("ex:Spec-") ++ stream_id ++ ("-") ++ stage_id
      let spec_key := (stream_id, stage_id)
      let specNew := ¬ specs.contains spec_iri
      let specs' := if specNew then specs ++ [spec_iri] else specs
      let stage_label := (dictFind stage_info spec_key).getD (("Stage ") ++ stage_num)
      let specLines : List String :=
        if specNew then
          [spec_iri ++ (" a ex:Specification ; rdfs:label \"Specification for ") ++
            escape_turtle_literal stage_label ++ ("\" .\n")]
        else []
      let specCount := if specNew then 1 else 0
      if deliverable = "" then
        let out := emit_specs_and_deliverables_go rest stage_info agents specs'
        (specLines ++ out.1, specCount + out.2)
      else
        let explanation := get_value row ("Explanation/Translation")
        let owner_raw := get_value row ("Owner")
        let category := get_value row ("Category")
        let plan_date := get_value row ("Plan date")
        let actual_date := get_value row ("Actual date")
        let comments := get_value row ("Comments/Document reference")
        let deliv_id := String.mk ((safe_id deliverable).data.take 64)
        let qa_iri := ("ex:CQA-") ++ stream_id ++ ("-") ++ stage_id ++ ("-") ++ deliv_id
        let ps₀ : List String :=
          [qa_iri ++ (" a ex:QualityAttribute"),
           ("rdfs:label \"") ++ escape_turtle_literal deliverable ++ ("\"")]
        let ps₁ := ps₀ ++ (if explanation ≠ "" then
          [("rdfs:comment \"") ++ escape_turtle_literal explanation ++ ("\"")] else [])
        let ps₂ := ps₁ ++ (if category ≠ "" then
          [("ex:hasCategory \"") ++ escape_turtle_literal category ++ ("\"")] else [])
        let ps₃ := ps₂ ++ (if plan_date ≠ "" then
          [("ex:plannedDate \"") ++ escape_turtle_literal plan_date ++ ("\"")] else [])
        let ps₄ := ps₃ ++ (if actual_date ≠ "" then
          [("ex:actualDate \"") ++ escape_turtle_literal actual_date ++ ("\"")] else [])
        let ps₅ := ps₄ ++ (if comments ≠ "" then
          [("ex:reference \"") ++ escape_turtle_literal comments ++ ("\"")] else [])
        let owner_parts : List String :=
          if owner_raw = "" then []
          else ((pySplitChar (',') owner_raw).map pyStrip).filter (fun p => p ≠ "")
        let agent_iris := owner_parts.map (fun p => ("ex:Agent-") ++ safe_id p)
        let ps₆ := ps₅ ++ (if agent_iris ≠ [] then
          [("prov:wasAttributedTo ") ++ String.intercalate (", ") agent_iris] else [])
        let qa_line := String.intercalate (" ; ") ps₆ ++ (" .\n")
        let ag := declareAgents owner_parts agents
        let link_line := spec_iri ++ (" ex:hasCQA ") ++ qa_iri ++ (" .\n")
        let out := emit_specs_and_deliverables_go rest stage_info ag.2 specs'
        (specLines ++ [qa_line] ++ ag.1 ++ [link_line] ++ out.1,
         specCount + 1 + ag.1.length + 1 + out.2)

/-- `emit_specs_and_deliverables` as the list of emitted `ttl_lines` plus
the running count. -/
def emit_specs_and_deliverables_lines (rows : List Row)
    (stage_info : List ((String × String) × String)) : List String × Nat :=
  emit_specs_and_deliverables_go rows stage_info [] []

/-- `emit_specs_and_deliverables`: joined TTL text and count. -/
def emit_specs_and_deliverables (rows : List Row)
    (stage_info : List ((String × String) × String)) : String × Nat :=
  ((emit_specs_and_deliverables_lines rows stage_info).1.foldl (· ++ ·) (""),
   (emit_specs_and_deliverables_lines rows stage_info).2)

/-! ## TTL combination (`combine_ttl_files`, `combine_ttls.py` 26-80) -/

/-- Processing of one (already stripped) line of an input file: `@prefix`
lines with at least three whitespace-separated parts update the prefix
dict under the prefix *name*; non-empty, non-comment lines are collected
as triples; everything else is dropped. -/
def combineStep (st : List (String × String) × List String) (line : String) :
    List (String × String) × List String :=
  if leadsWith (("@prefix").data) line.data then
    let parts := pySplitWs line
    if parts.length ≥ 3 then
      (dictUpsert st.1 ((parts.get? 1).getD ("")) (String.intercalate (" ") (parts.drop 2)),
       st.2)
    else st
  else if line ≠ "" && ¬ leadsWith (("#").data) line.data then (st.1, st.2 ++ [line])
  else st

/-- Prefix/triple collection over the input files (each given by its text
content; the source skips files that do not exist before this point). -/
def combineCollect (files : List String) : List (String × String) × List String :=
  files.foldl
    (fun st content => ((pySplitChar ('\n') content).map pyStrip).foldl combineStep st)
    ([], [])

/-- Python string `<`: lexicographic comparison by code point. -/
def charListLt : List Char → List Char → Bool
  | [], [] => false
  | [], _ :: _ => true
  | _ :: _, [] => false
  | a :: as, b :: bs => a.toNat < b.toNat || (a = b && charListLt as bs)

/-- Insertion into a key-sorted association list (Python `sorted` on dict
items whose keys are distinct, ascending by string `<`). -/
def sortPairsInsert (p : String × String) :
    List (String × String) → List (String × String)
  | [] => [p]
  | q :: t =>
    if charListLt q.1.data p.1.data then q :: sortPairsInsert p t
    else p :: q :: t

/-- Key-sort of the collected prefix pairs. -/
def sortPairs (l : List (String × String)) : List (String × String) :=
  l.foldr sortPairsInsert []

/-- `combine_ttl_files` on file contents: sorted `@prefix` block, a blank
line, then the collected triple lines joined by newlines. -/
def combine_ttl_files (files : List String) : String :=
  let st := combineCollect files
  String.join ((sortPairs st.1).map
    (fun pr => ("@prefix ") ++ pr.1 ++ (" ") ++ pr.2 ++ ("\n")))
    ++ ("\n") ++ String.intercalate ("\n") st.2

/-- Spec-side combination, following the claim's words: concatenate the
files' lines, removing duplicate `@prefix` lines by exact string match
(first occurrence kept), preserving the order of everything else. -/
def specCombineKeep : List String → List String → List String
  | [], _ => []
  | line :: rest, seen =>
    if leadsWith (("@prefix").data) line.data then
      if seen.contains line then specCombineKeep rest seen
      else line :: specCombineKeep rest (seen ++ [line])
    else line :: specCombineKeep rest seen

/-- Spec-side `combine_ttl_files` (claim wording). -/
def specCombine (files : List String) : String :=
  String.intercalate ("\n")
    (specCombineKeep (files.flatMap (pySplitChar ('\n'))) [])

/-! ## GraphDB uploader (`export_to_graphdb.py` 71-137) -/

/-- One HTTP attempt's outcome as seen by `upload_file`: a successful
response, an `HTTPError` with a status code, or another exception
(connection error). -/
inductive HttpResp : Type
  | ok (status : Nat)
  | httpErr (status : Nat)
  | connErr

/-- Result of `upload_file`: success flag, final status (-1 for non-HTTP
errors), number of attempts made, and the sequence of backoff sleeps. -/
structure UploadOutcome : Type where
  success : Bool
  status : Int
  attempts : Nat
  delays : List Nat
deriving DecidableEq, Repr

/-- Statuses retried by `upload_file`: 429 and 5xx. -/
def retryable (s : Nat) : Bool :=
  s = 429 || (500 ≤ s && s < 600)

/-- The retry loop of `upload_file`: one response consumed per attempt;
backoff starts at 1 second and doubles, capped at 30; a retryable failure
with `attempt >= max_retries` (and any non-retryable HTTP error) is
terminal.  The response list models the endpoint; exhausting it ends the
loop unsuccessfully. -/
def upload_file_go (max_retries : Nat) :
    List HttpResp → Nat → Nat → UploadOutcome
  | [], attempt, _ => ⟨false, -1, attempt, []⟩
  | r :: rest, attempt, backoff =>
    match r with
    | .ok s => ⟨true, (s : Int), attempt + 1, []⟩
    | .httpErr s =>
      if retryable s then
        if max_retries ≤ attempt + 1 then ⟨false, (s : Int), attempt + 1, []⟩
        else
          let o := upload_file_go max_retries rest (attempt + 1) (min (backoff * 2) 30)
          ⟨o.success, o.status, o.attempts, backoff :: o.delays⟩
      else ⟨false, (s : Int), attempt + 1, []⟩
    | .connErr =>
      if max_retries ≤ attempt + 1 then ⟨false, -1, attempt + 1, []⟩
      else
        let o := upload_file_go max_retries rest (attempt + 1) (min (backoff * 2) 30)
        ⟨o.success, o.status, o.attempts, backoff :: o.delays⟩

/-- `upload_file` against an endpoint whose successive responses are
`responses`. -/
def upload_file (responses : List HttpResp) (max_retries : Nat) : UploadOutcome :=
  upload_file_go max_retries responses 0 1

/-- The per-file loop of `main` (dry-run off, files existing): upload each
file in order; the first failure prints and returns exit code 1, skipping
the rest.  Returns `(exit code, number of upload_file invocations)`. -/
def uploadAll (max_retries : Nat) : List (List HttpResp) → Nat × Nat
  | [] => (0, 0)
  | f :: rest =>
    if (upload_file f max_retries).success then
      let out := uploadAll max_retries rest
      (out.1, out.2 + 1)
    else (1, 1)

/-! ## Exit codes on missing required inputs -/

/-- Exit code of `extract_xlsx.py main` (lines 170-202): 2 when the input
directory is missing or not a directory, 1 when `--combine` was requested
and building the combined frame raised, else 0. -/
def extract_xlsx_exit (input_dir_ok combine_requested combine_failed : Bool) : Nat :=
  if !input_dir_ok then 2
  else if combine_requested && combine_failed then 1
  else 0

/-- Exit code of `generate_cmc_ttl.py main` (lines 241-279): 2 when the
source CSV is missing, else 0. -/
def generate_cmc_ttl_exit (sgd_exists : Bool) : Nat :=
  if !sgd_exists then 2 else 0

/-- Exit code of `generate_cmc_ttl_gupri.py main` (lines 303-346): 1 when
the source CSV is missing, else 0. -/
def generate_cmc_ttl_gupri_exit (sgd_exists : Bool) : Nat :=
  if !sgd_exists then 1 else 0

/-! ## Concrete scenario inputs -/

/-- First CSV row of the end-to-end scenario (claim C2). -/
def c2row1 : Row :=
  [(("Value Stream"), ("CGT")), (("Stage Gate"), ("0")),
   (("Deliverable"), ("Plan X")), (("Owner"), ("Alice, Bob"))]

/-- Second CSV row of the end-to-end scenario (claim C2). -/
def c2row2 : Row :=
  [(("Value Stream"), ("CGT")), (("Stage Gate"), ("0")),
   (("Deliverable"), ("Plan Y")), (("Owner"), (""))]

/-- A row whose aliased column is present but empty while the fallback
alias carries a value (claim C5). -/
def c5row : Row := [(("Value Stream"), ("")), (("Drop Down"), ("X"))]

/-- First row of a stage whose description is empty (claim C8). -/
def c8row1 : Row := [(("Value Stream"), ("CGT")), (("Stage Gate"), ("1"))]

/-- Later row of the same stage carrying the description (claim C8). -/
def c8row2 : Row :=
  [(("Value Stream"), ("CGT")), (("Stage Gate"), ("1")),
   (("Stage Gate Description"), ("Good")), (("Deliverable"), ("D1"))]

/-- A TTL file declaring two prefixes in non-alphabetical order (claim C4). -/
def c4file : String := "@prefix zz: <u> .\n@prefix aa: <v> ."

/-- Two TTL files both declaring `@prefix ex:` (claim C4's example). -/
def c4fileA : String := "@prefix ex: <https://w3id.org/cmc-stagegate#> .\nx a y ."

/-- Second file of the pair. -/
def c4fileB : String := "@prefix ex: <https://w3id.org/cmc-stagegate#> .\nz a w ."

/-- Whether a character list does not end in a double quote (sufficient
condition for the triple-quoted escape to stay parseable). -/
def lastNotQuote (s : List Char) : Prop := s.getLast? ≠ some ('"')

/-- Characterization target for the non-GUPRI `get_value`: the value of the
first alias present as a key of the row (empty or not), else `""`. -/
def firstPresentAliasValue (row : Row) (logical_name : String) : String :=
  go ((dictFind OFFICIAL_COLS logical_name).getD [])
where
  go : List String → String
    | [] => ""
    | name :: rest =>
      match dictFind row name with
      | some v => v
      | none => go rest

/-! # Theorems -/

/-! ## Shared helper lemmas -/

theorem dictFind_append {κ ν : Type} [DecidableEq κ]
    (m : List (κ × ν)) (k₀ : κ) (v₀ : ν) (k : κ) :
    dictFind (m ++ [(k₀, v₀)]) k = if k₀ = k then some v₀ else dictFind m k := by
  induction m with
  | nil => simp [dictFind]
  | cons p t ih =>
    obtain ⟨k₁, v₁⟩ := p
    simp only [List.cons_append, dictFind, List.append_eq]
    rw [ih]
    by_cases hk : k₀ = k
    · simp [hk]
    · simp [hk]

theorem create_gupri_key_congr (m : GupriMappings) (et : String)
    (c₁ c₂ : List String) (hint : Option String)
    (h : cacheKey et c₁ = cacheKey et c₂) :
    create_gupri m et c₁ hint = create_gupri m et c₂ hint := by
  simp [create_gupri, h]

/-! ## C1: GUPRI minting is memoized within and across runs -/

/-- C1: for identical `(entity_type, components)`, a second `create_gupri`
call returns the identifier cached by the first (whatever either call's
readable hint), both within one run and after the mapping is saved and
reloaded across runs. -/
theorem create_gupri_memoized (m : GupriMappings) (et : String)
    (comps : List String) (hint hint' : Option String) :
    (create_gupri (create_gupri m et comps hint).2 et comps hint').1 =
      (create_gupri m et comps hint).1 ∧
    (create_gupri (load_id_mappings (save_id_mappings
        (create_gupri m et comps hint).2)) et comps hint').1 =
      (create_gupri m et comps hint).1 := by
  have h : (create_gupri (create_gupri m et comps hint).2 et comps hint').1 =
      (create_gupri m et comps hint).1 := by
    cases hf : dictFind m (cacheKey et comps) with
    | some g => simp [create_gupri, hf]
    | none => simp [create_gupri, hf, dictFind_append]
  exact ⟨h, h⟩

/-! ## C10: the cache key conflates distinct component tuples -/

/-- C10: `create_gupri` is not injective on logically distinct keys: the
colon-joined cache key drops empty components and does not escape colons,
so `("Stage", "a:b")` collides with `("Stage", "a", "b")` and
`("Stage", "", "x")` with `("Stage", "x")`, from any mapping state. -/
theorem create_gupri_collides (m : GupriMappings) :
    ([("a:b")] ≠ ([("a"), ("b")] : List String)) ∧
    ([(""), ("x")] ≠ ([("x")] : List String)) ∧
    (create_gupri m ("Stage") [("a:b")] none).1 =
      (create_gupri m ("Stage") [("a"), ("b")] none).1 ∧
    (create_gupri m ("Stage") [(""), ("x")] none).1 =
      (create_gupri m ("Stage") [("x")] none).1 := by
  refine ⟨by decide, by decide, ?_, ?_⟩
  · exact congrArg Prod.fst
      (create_gupri_key_congr m ("Stage") [("a:b")] [("a"), ("b")] none (by decide))
  · exact congrArg Prod.fst
      (create_gupri_key_congr m ("Stage") [(""), ("x")] [("x")] none (by decide))

/-! ## C9: exit codes on missing required inputs -/

/-- C9 counterexample: the GUPRI generator exits with code 1, not 2, when
its source CSV is missing, so not every script uses exit code 2 for a
missing required input. -/
theorem gupri_missing_input_exit_is_one :
    generate_cmc_ttl_gupri_exit false = 1 ∧ (1 : Nat) ≠ 2 := by decide

/-- C9 amended: `extract_xlsx.py` and `generate_cmc_ttl.py` exit with code
2 on a missing required input path, while `generate_cmc_ttl_gupri.py` exits
with code 1; all return 0 on the success path, and `extract_xlsx.py`
returns 1 for a failed combine step. -/
theorem missing_input_exit_codes (cr cf : Bool) :
    extract_xlsx_exit false cr cf = 2 ∧
    generate_cmc_ttl_exit false = 2 ∧
    generate_cmc_ttl_gupri_exit false = 1 ∧
    extract_xlsx_exit true true true = 1 ∧
    extract_xlsx_exit true false false = 0 ∧
    generate_cmc_ttl_exit true = 0 ∧
    generate_cmc_ttl_gupri_exit true = 0 := by
  cases cr <;> cases cf <;> decide

/-! ## C5: column resolution -/

/-- C5 counterexample: with `Value Stream` present but empty and the later
alias `Drop Down` carrying `"X"`, the non-GUPRI `get_value` returns `""`
instead of the first non-absent value `"X"`. -/
theorem get_value_not_first_nonabsent :
    get_value c5row ("Value Stream") = "" ∧
    specGetValue c5row ("Value Stream") = ("X") ∧
    (("") : String) ≠ ("X") := by decide

theorem get_value_gupri_go_eq (row : Row) (names : List String) :
    get_value_gupri.go row names = pyStrip (specGetValue.go row names) := by
  induction names with
  | nil => simp [get_value_gupri.go, specGetValue.go, pyStrip, pyStripL]
  | cons n rest ih =>
    cases hf : dictFind row n with
    | some v =>
      by_cases hv : v = ""
      · simp [get_value_gupri.go, specGetValue.go, rowHas, hf, hv, ih]
      · simp [get_value_gupri.go, specGetValue.go, rowHas, hf, hv]
    | none => simp [get_value_gupri.go, specGetValue.go, rowHas, hf, ih]

theorem get_value_go_eq (row : Row) (names : List String) :
    get_value.go row names = firstPresentAliasValue.go row names := by
  induction names with
  | nil => simp [get_value.go, firstPresentAliasValue.go]
  | cons n rest ih =>
    cases hf : dictFind row n with
    | some v => simp [get_value.go, firstPresentAliasValue.go, rowHas, hf]
    | none => simp [get_value.go, firstPresentAliasValue.go, rowHas, hf, ih]

/-- C5 amended: the GUPRI generator's `get_value` returns the stripped
first non-empty value among the field's registered aliases (empty string
when none), exactly the claimed resolution followed by `strip()`; the
non-GUPRI `get_value` instead returns the value of the first alias present
as a key — even when that value is empty — ignoring all later aliases.
Neither raises. -/
theorem get_value_resolution (row : Row) (logical_name : String) :
    get_value_gupri row logical_name = pyStrip (specGetValue row logical_name) ∧
    get_value row logical_name = firstPresentAliasValue row logical_name := by
  exact ⟨get_value_gupri_go_eq row _, get_value_go_eq row _⟩

/-! ## C2: the end-to-end deliverable emission scenario -/

/-- C2: on the two-row CGT stage-0 scenario, `emit_specs_and_deliverables`
emits exactly one Specification, exactly two QualityAttributes, exactly two
distinct Agents (Alice, Bob) each declared once, and the Plan Y stanza
carries no `prov:wasAttributedTo`. -/
theorem scenario_emission :
    ((emit_specs_and_deliverables_lines [c2row1, c2row2]
        (build_stage_info [c2row1, c2row2])).1.countP
      (fun l => strHasSub l (" a ex:Specification"))) = 1 ∧
    ((emit_specs_and_deliverables_lines [c2row1, c2row2]
        (build_stage_info [c2row1, c2row2])).1.countP
      (fun l => strHasSub l (" a ex:QualityAttribute"))) = 2 ∧
    ((emit_specs_and_deliverables_lines [c2row1, c2row2]
        (build_stage_info [c2row1, c2row2])).1.countP
      (fun l => strHasSub l (" a prov:Agent"))) = 2 ∧
    ((emit_specs_and_deliverables_lines [c2row1, c2row2]
        (build_stage_info [c2row1, c2row2])).1.count
      ("ex:Agent-alice a prov:Agent ; rdfs:label \"Alice\" .\n")) = 1 ∧
    ((emit_specs_and_deliverables_lines [c2row1, c2row2]
        (build_stage_info [c2row1, c2row2])).1.count
      ("ex:Agent-bob a prov:Agent ; rdfs:label \"Bob\" .\n")) = 1 ∧
    (∀ l ∈ (emit_specs_and_deliverables_lines [c2row1, c2row2]
        (build_stage_info [c2row1, c2row2])).1,
      strHasSub l ("Plan Y") = true → strHasSub l ("prov:wasAttributedTo") = false) := by
  decide

/-! ## C7: CSV extraction -/

theorem take_append_replicate {α : Type} (n m m' : Nat) (l : List α) (a : α)
    (hm : n ≤ l.length + m) (hm' : n ≤ l.length + m') :
    (l ++ List.replicate m a).take n = (l ++ List.replicate m' a).take n := by
  rw [List.take_append_eq_append_take, List.take_append_eq_append_take,
    List.take_replicate, List.take_replicate]
  have h : min (n - l.length) m = min (n - l.length) m' := by omega
  rw [h]

theorem normRow_cons (h : String) (hs : List String) (r : List String) :
    normRow (h :: hs) r = (h, pyStrip ((r.head?).getD (""))) :: normRow hs r.tail := by
  cases r with
  | nil =>
    simp [normRow, List.replicate_succ, List.take_replicate]
  | cons v r' =>
    simp only [normRow, List.length_cons, List.cons_append, List.take_succ_cons,
      List.zip_cons_cons, List.map_cons, List.head?_cons, Option.getD_some, List.tail_cons]
    rw [take_append_replicate hs.length (hs.length + 1) hs.length r' ("")
      (by omega) (by omega)]

theorem normRow_fst (headers : List String) (r : List String) :
    (normRow headers r).map Prod.fst = headers := by
  induction headers generalizing r with
  | nil => simp [normRow]
  | cons h hs ih => rw [normRow_cons]; simp [ih]

theorem get?_tail {α : Type} (r : List α) (j : Nat) : r.tail.get? j = r.get? (j + 1) := by
  cases r <;> simp

theorem normRow_snd (headers : List String) (r : List String) :
    (normRow headers r).map Prod.snd =
      (List.range headers.length).map (fun j => pyStrip ((r.get? j).getD (""))) := by
  induction headers generalizing r with
  | nil => simp [normRow]
  | cons h hs ih =>
    rw [normRow_cons]
    simp only [List.map_cons, List.length_cons, List.range_succ_eq_map, List.map_map]
    congr 1
    · cases r <;> simp
    · rw [ih]
      apply List.map_congr_left
      intro j _
      simp [Function.comp, get?_tail]

/-- C7: extraction returns empty for fewer than two records; the concrete
short-row example pads `B` to the empty string; in general each normalized
row keeps exactly the headers as keys, its values are the stripped padded
or truncated originals, and each record past the second yields one row. -/
theorem csv_second_row_extraction :
    (∀ records : List (List String), records.length < 2 →
      read_csv_second_row_headers records = ([], [])) ∧
    read_csv_second_row_headers [[("junk")], [("A"), ("B")], [("x")]] =
      ([("A"), ("B")], [[(("A"), ("x")), (("B"), (""))]]) ∧
    (∀ headers r, (normRow headers r).map Prod.fst = headers) ∧
    (∀ headers r, (normRow headers r).map Prod.snd =
      (List.range headers.length).map (fun j => pyStrip ((r.get? j).getD ("")))) ∧
    (∀ r₀ r₁ rest, (read_csv_second_row_headers (r₀ :: r₁ :: rest)).2.length =
      rest.length) := by
  refine ⟨?_, by decide, normRow_fst, normRow_snd, ?_⟩
  · intro records h
    match records with
    | [] => rfl
    | [r] => rfl
    | r₀ :: r₁ :: rest => simp at h; omega
  · intro r₀ r₁ rest
    simp [read_csv_second_row_headers]

/-- C7 witness: the empty-record and length facts at concrete inputs. -/
theorem csv_second_row_extraction_witness :
    (([[("x")]] : List (List String)).length < 2 ∧
      read_csv_second_row_headers [[("x")]] = ([], [])) ∧
    (read_csv_second_row_headers [[("a")], [("B")], [("c")], [("d")]]).2.length = 2 := by
  refine ⟨⟨by decide, csv_second_row_extraction.1 [[("x")]] (by decide)⟩, ?_⟩
  exact csv_second_row_extraction.2.2.2.2 [("a")] [("B")] [[("c")], [("d")]]

/-! ## C4: TTL combination -/

/-- C4 counterexample: combining a single file whose two `@prefix` lines
appear in non-alphabetical order does not preserve first-occurrence order —
the source emits the prefix block sorted by name (and drops nothing else
here), so the output differs from the claimed concatenation-with-dedup. -/
theorem combine_not_order_preserving :
    combine_ttl_files [c4file] = ("@prefix aa: <v> .\n@prefix zz: <u> .\n\n") ∧
    specCombine [c4file] = ("@prefix zz: <u> .\n@prefix aa: <v> .") ∧
    combine_ttl_files [c4file] ≠ specCombine [c4file] := by decide

theorem charListLt_asymm (a : List Char) :
    ∀ b : List Char, charListLt a b = true → charListLt b a = false := by
  induction a with
  | nil => intro b h; cases b <;> simp [charListLt] at h ⊢
  | cons x xs ih =>
    intro b h
    cases b with
    | nil => simp [charListLt] at h
    | cons y ys =>
      simp only [charListLt, Bool.or_eq_true, Bool.and_eq_true, decide_eq_true_eq] at h
      rcases h with h | ⟨rfl, h⟩
      · have h1 : ¬ y.toNat < x.toNat := Nat.lt_asymm h
        have h2 : y ≠ x := by
          intro e; rw [e] at h; exact Nat.lt_irrefl _ h
        simp [charListLt, h1, h2]
      · have h1 : ¬ x.toNat < x.toNat := Nat.lt_irrefl _
        simp [charListLt, h1, ih ys h]

theorem charToNat_inj (a b : Char) (h : a.toNat = b.toNat) : a = b := by
  have := Char.ofNat_toNat a
  rw [h, Char.ofNat_toNat] at this
  exact this.symm

theorem charListLt_ge_trans (a : List Char) :
    ∀ b c : List Char, charListLt b a = false → charListLt c b = false →
      charListLt c a = false := by
  induction a with
  | nil => intro b c _ _; cases c <;> simp [charListLt]
  | cons x xs ih =>
    intro b c h1 h2
    cases b with
    | nil => simp [charListLt] at h1
    | cons y ys =>
      cases c with
      | nil => simp [charListLt] at h2
      | cons z zs =>
        simp only [charListLt, Bool.or_eq_false_iff, Bool.and_eq_false_iff,
          decide_eq_false_iff_not] at h1 h2 ⊢
        obtain ⟨h1a, h1b⟩ := h1
        obtain ⟨h2a, h2b⟩ := h2
        refine ⟨by omega, ?_⟩
        by_cases hzx : z = x
        · subst hzx
          have hyz : y = z := charToNat_inj y z (by omega)
          subst hyz
          rcases h1b with h | h
          · exact absurd rfl h
          · rcases h2b with h' | h'
            · exact absurd rfl h'
            · exact Or.inr (ih ys zs h h')
        · exact Or.inl hzx

theorem mem_sortPairsInsert (l : List (String × String)) (p x : String × String)
    (hx : x ∈ sortPairsInsert p l) : x = p ∨ x ∈ l := by
  induction l with
  | nil => simpa [sortPairsInsert] using hx
  | cons q t ih =>
    by_cases hlt : charListLt q.1.data p.1.data = true
    · simp only [sortPairsInsert, if_pos hlt] at hx
      rcases List.mem_cons.mp hx with h | h
      · exact Or.inr (h ▸ List.mem_cons_self q t)
      · rcases ih h with h' | h'
        · exact Or.inl h'
        · exact Or.inr (List.mem_cons_of_mem q h')
    · simp only [sortPairsInsert, if_neg hlt] at hx
      exact List.mem_cons.mp hx

theorem pairwise_sortPairsInsert (l : List (String × String)) (p : String × String)
    (hl : l.Pairwise (fun a b => charListLt b.1.data a.1.data = false)) :
    (sortPairsInsert p l).Pairwise (fun a b => charListLt b.1.data a.1.data = false) := by
  induction l with
  | nil => simp [sortPairsInsert]
  | cons q t ih =>
    rcases List.pairwise_cons.mp hl with ⟨hq, ht⟩
    by_cases hlt : charListLt q.1.data p.1.data = true
    · simp only [sortPairsInsert, if_pos hlt]
      refine List.pairwise_cons.mpr ⟨?_, ih ht⟩
      intro b hb
      rcases mem_sortPairsInsert t p b hb with h | h
      · rw [h]; exact charListLt_asymm _ _ hlt
      · exact hq b h
    · simp only [sortPairsInsert, if_neg hlt]
      have hle : charListLt q.1.data p.1.data = false := by
        cases hv : charListLt q.1.data p.1.data
        · rfl
        · exact absurd hv hlt
      refine List.pairwise_cons.mpr ⟨?_, hl⟩
      intro b hb
      rcases List.mem_cons.mp hb with h | h
      · rw [h]; exact hle
      · exact charListLt_ge_trans _ _ _ hle (hq b h)

theorem sortPairs_pairwise (l : List (String × String)) :
    (sortPairs l).Pairwise (fun a b => charListLt b.1.data a.1.data = false) := by
  induction l with
  | nil => simp [sortPairs]
  | cons p t ih => exact pairwise_sortPairsInsert _ p ih

/-- C4 amended: `combine_ttl_files` dedups `@prefix` lines by prefix name
with the last URI winning, emits the prefix block sorted by name (proved
in general), drops comment and blank lines, and keeps non-prefix lines in
order; the spec's own example still holds — two files both declaring
`@prefix ex:` yield exactly one `@prefix ex:` line. -/
theorem combine_dedup_behavior :
    (∀ l : List (String × String),
      (sortPairs l).Pairwise (fun a b => charListLt b.1.data a.1.data = false)) ∧
    ((pySplitChar ('\n') (combine_ttl_files [c4fileA, c4fileB])).countP
      (fun ln => leadsWith (("@prefix ex:").data) ln.data)) = 1 ∧
    combine_ttl_files [("@prefix ex: <a> ."), ("@prefix ex: <b> .")] =
      ("@prefix ex: <b> .\n\n") ∧
    combine_ttl_files [("a .\n# c\n\nb .")] = ("\na .\nb .") := by
  exact ⟨sortPairs_pairwise, by decide, by decide, by decide⟩

/-! ## C8: stage descriptions -/

/-- C8 counterexample: with the description empty on the stage's first row
and `"Good"` on its second, the first non-empty description is `"Good"`,
yet the emitted Stage stanza is labelled `"Stage 1"` and never mentions
`"Good"`. -/
theorem stage_label_ignores_later_descriptions :
    dictFind (build_stage_info [c8row1, c8row2]) ((("cgt"), ("1"))) = some ("Good") ∧
    ((emit_stage_blocks_lines [c8row1, c8row2]).1.countP
      (fun l => strHasSub l ("Good"))) = 0 ∧
    ((emit_stage_blocks_lines [c8row1, c8row2]).1.countP
      (fun l => strHasSub l ("rdfs:label \"Stage 1\""))) = 1 := by
  decide

theorem bsi_go_find (rows : List Row) :
    ∀ (acc : List ((String × String) × String)) (key : String × String),
      dictFind (build_stage_info_go rows acc) key =
        (match dictFind acc key with
         | some v => some v
         | none => specFirstStageDesc rows key) := by
  induction rows with
  | nil =>
    intro acc key
    cases h : dictFind acc key <;> simp [build_stage_info_go, specFirstStageDesc, h]
  | cons row rest ih =>
    intro acc key
    by_cases hvs : get_value row ("Value Stream") = ""
    · simp [build_stage_info_go, specFirstStageDesc, hvs, ih]
    · by_cases hsg : get_value row ("Stage Gate") = ""
      · simp [build_stage_info_go, specFirstStageDesc, hvs, hsg, ih]
      · by_cases hdesc : get_value row ("Stage Gate Description") = ""
        · simp [build_stage_info_go, specFirstStageDesc, hvs, hsg, hdesc, ih]
        · cases hacc : dictFind acc
            (safe_id (get_value row ("Value Stream")),
             safe_id (get_value row ("Stage Gate"))) with
          | some v =>
            by_cases hkey :
                (safe_id (get_value row ("Value Stream")),
                 safe_id (get_value row ("Stage Gate"))) = key
            · rw [← hkey]
              simp [build_stage_info_go, specFirstStageDesc, hvs, hsg, hdesc, hacc, ih]
            · simp [build_stage_info_go, specFirstStageDesc, hvs, hsg, hdesc, hacc,
                ih, hkey]
          | none =>
            by_cases hkey :
                (safe_id (get_value row ("Value Stream")),
                 safe_id (get_value row ("Stage Gate"))) = key
            · rw [← hkey]
              simp only [build_stage_info_go, hvs, hsg, hdesc, hacc]
              simp only [decide_False, Bool.or_self, Option.isNone_none, Bool.true_and,
                Bool.false_eq_true, if_false]
              rw [if_pos (by simp [hdesc])]
              rw [ih, dictFind_append]
              simp [specFirstStageDesc, hvs, hsg, hdesc, hacc]
            · simp only [build_stage_info_go, hvs, hsg, hdesc, hacc]
              simp only [decide_False, Bool.or_self, Option.isNone_none, Bool.true_and,
                Bool.false_eq_true, if_false]
              rw [if_pos (by simp [hdesc])]
              rw [ih, dictFind_append, if_neg hkey]
              cases h2 : dictFind acc key <;>
                simp [specFirstStageDesc, hvs, hsg, hdesc, hkey]

/-- C8 amended: the `(value stream, stage)` description map built by
`build_stage_info` — and with it the Specification label — is exactly the
first non-empty description among the stage's rows (proved in general);
the emitted Stage stanza instead uses the stage's first row only, falling
back to `"Stage {n}"` when that row's description is empty, as the
concrete two-row scenario shows; the later row still contributes its own
deliverable. -/
theorem stage_description_resolution :
    (∀ (rows : List Row) (key : String × String),
      dictFind (build_stage_info rows) key = specFirstStageDesc rows key) ∧
    ((emit_specs_and_deliverables_lines [c8row1, c8row2]
        (build_stage_info [c8row1, c8row2])).1.countP
      (fun l => strHasSub l ("Specification for Good"))) = 1 ∧
    ((emit_stage_blocks_lines [c8row1, c8row2]).1.countP
      (fun l => strHasSub l ("rdfs:label \"Stage 1\""))) = 1 ∧
    ((emit_specs_and_deliverables_lines [c8row1, c8row2]
        (build_stage_info [c8row1, c8row2])).1.countP
      (fun l => strHasSub l (" a ex:QualityAttribute"))) = 1 := by
  refine ⟨?_, by decide, by decide, by decide⟩
  intro rows key
  have h := bsi_go_find rows [] key
  simpa [build_stage_info, dictFind] using h
theorem capDouble (j : Nat) : min (min (2 ^ j) 30 * 2) 30 = min (2 ^ (j + 1)) 30 := by
  have h2 : 2 ^ (j + 1) = 2 ^ j * 2 := pow_succ 2 j
  omega

theorem upload_delays_shape (resps : List HttpResp) (mr : Nat) :
    ∀ (a j : Nat),
      (upload_file_go mr resps a (min (2 ^ j) 30)).delays =
        (List.range (upload_file_go mr resps a (min (2 ^ j) 30)).delays.length).map
          (fun i => min (2 ^ (j + i)) 30) := by
  induction resps with
  | nil => intro a j; simp [upload_file_go]
  | cons r rest ih =>
    intro a j
    cases r with
    | ok s => simp [upload_file_go]
    | httpErr s =>
      by_cases hret : retryable s = true
      · by_cases hmr : mr ≤ a + 1
        · simp [upload_file_go, hret, hmr]
        · simp only [upload_file_go, hret, if_true, if_neg hmr]
          rw [capDouble j]
          rw [ih (a + 1) (j + 1)]
          simp only [List.length_cons, List.length_map, List.range_succ_eq_map,
            List.map_cons, List.map_map]
          rw [List.length_range]
          congr 1
          apply List.map_congr_left
          intro i _
          show 2 ^ (j + 1 + i) ⊓ 30 = 2 ^ (j + (i + 1)) ⊓ 30
          have he : j + 1 + i = j + (i + 1) := by omega
          rw [he]
      · have hret' : retryable s = false := by
          cases hv : retryable s
          · rfl
          · exact absurd hv hret
        simp [upload_file_go, hret']
    | connErr =>
      by_cases hmr : mr ≤ a + 1
      · simp [upload_file_go, hmr]
      · simp only [upload_file_go, if_neg hmr]
        rw [capDouble j]
        rw [ih (a + 1) (j + 1)]
        simp only [List.length_cons, List.length_map, List.range_succ_eq_map,
          List.map_cons, List.map_map]
        rw [List.length_range]
        congr 1
        apply List.map_congr_left
        intro i _
        show 2 ^ (j + 1 + i) ⊓ 30 = 2 ^ (j + (i + 1)) ⊓ 30
        have he : j + 1 + i = j + (i + 1) := by omega
        rw [he]

theorem chain_range_map_mono : ∀ (n : Nat) (f : Nat → Nat), (∀ i, f i ≤ f (i + 1)) →
    List.Chain' (· ≤ ·) ((List.range n).map f) := by
  intro n
  induction n with
  | zero => intro f _; simp
  | succ m ih =>
    intro f hf
    rw [List.range_succ_eq_map, List.map_cons, List.map_map]
    refine List.chain'_cons'.mpr ⟨?_, ih (fun i => f (i + 1)) (fun i => hf (i + 1))⟩
    intro b hb
    cases m with
    | zero => simp at hb
    | succ k =>
      rw [List.range_succ_eq_map] at hb
      simp only [List.map_cons, List.head?_cons, Option.mem_some_iff] at hb
      rw [← hb]
      exact hf 0

theorem upload_file_start (resps : List HttpResp) (mr : Nat) :
    upload_file resps mr = upload_file_go mr resps 0 (min (2 ^ 0) 30) := by
  simp [upload_file]

theorem upload_delay_bounds (resps : List HttpResp) (mr : Nat) :
    ∀ d ∈ (upload_file resps mr).delays, 1 ≤ d ∧ d ≤ 30 := by
  intro d hd
  rw [upload_file_start, upload_delays_shape resps mr 0 0] at hd
  simp only [List.mem_map, List.mem_range] at hd
  obtain ⟨i, _, rfl⟩ := hd
  have h1 : 1 ≤ 2 ^ (0 + i) := Nat.one_le_two_pow
  omega

theorem upload_delays_chain (resps : List HttpResp) (mr : Nat) :
    List.Chain' (· ≤ ·) (upload_file resps mr).delays := by
  rw [upload_file_start, upload_delays_shape resps mr 0 0]
  apply chain_range_map_mono
  intro i
  have h2 : 2 ^ (0 + i + 1) = 2 ^ (0 + i) * 2 := pow_succ 2 (0 + i)
  have h3 : 0 + (i + 1) = 0 + i + 1 := by omega
  rw [h3, h2]
  omega

theorem upload_attempts_le (resps : List HttpResp) (mr : Nat) :
    ∀ a b, a < mr → (upload_file_go mr resps a b).attempts ≤ mr := by
  induction resps with
  | nil => intro a b h; simp [upload_file_go]; omega
  | cons r rest ih =>
    intro a b h
    cases r with
    | ok s => simp [upload_file_go]; omega
    | httpErr s =>
      by_cases hret : retryable s = true
      · by_cases hmr : mr ≤ a + 1
        · simp [upload_file_go, hret, hmr]; omega
        · simp only [upload_file_go, hret, if_true, if_neg hmr]
          exact ih (a + 1) _ (by omega)
      · have hret' : retryable s = false := by
          cases hv : retryable s
          · rfl
          · exact absurd hv hret
        simp [upload_file_go, hret']; omega
    | connErr =>
      by_cases hmr : mr ≤ a + 1
      · simp [upload_file_go, hmr]; omega
      · simp only [upload_file_go, if_neg hmr]
        exact ih (a + 1) _ (by omega)

theorem uploadAll_abort : ∀ (pre : List (List HttpResp)) (f : List HttpResp)
    (post : List (List HttpResp)) (mr : Nat),
    (∀ g ∈ pre, (upload_file g mr).success = true) →
    (upload_file f mr).success = false →
    uploadAll mr (pre ++ f :: post) = (1, pre.length + 1) := by
  intro pre
  induction pre with
  | nil => intro f post mr _ hf; simp [uploadAll, hf]
  | cons g t ih =>
    intro f post mr hpre hf
    have hg : (upload_file g mr).success = true := hpre g (List.mem_cons_self g t)
    simp only [List.cons_append, uploadAll, hg, if_true, List.append_eq]
    rw [ih f post mr (fun x hx => hpre x (List.mem_cons_of_mem g hx)) hf]
    simp [List.length_cons]

/-- C3: the uploader retries only 429/5xx with 1s-based doubling backoff
capped at 30s (the sleep sequence is exactly `min (2^i) 30`, hence
non-decreasing and within `[1, 30]`); against 503, 503, 200 with the
default `max_retries = 5` it succeeds on the third attempt with sleeps
`[1, 2]`; any other HTTP error is terminal on its first attempt; attempts
never exceed `max_retries`; and one file's terminal failure aborts the
remaining uploads with exit code 1. -/
theorem upload_retry_policy :
    upload_file [HttpResp.httpErr 503, HttpResp.httpErr 503, HttpResp.ok 200] 5 =
      ⟨true, 200, 3, [1, 2]⟩ ∧
    (∀ (resps : List HttpResp) (mr : Nat), (upload_file resps mr).delays =
      (List.range (upload_file resps mr).delays.length).map (fun i => min (2 ^ i) 30)) ∧
    (∀ (resps : List HttpResp) (mr : Nat),
      List.Chain' (· ≤ ·) (upload_file resps mr).delays) ∧
    (∀ (resps : List HttpResp) (mr : Nat) (d : Nat),
      d ∈ (upload_file resps mr).delays → 1 ≤ d ∧ d ≤ 30) ∧
    (∀ (s : Nat) (rest : List HttpResp) (mr : Nat), retryable s = false →
      upload_file (HttpResp.httpErr s :: rest) mr = ⟨false, (s : Int), 1, []⟩) ∧
    (∀ (resps : List HttpResp) (mr : Nat), 1 ≤ mr →
      (upload_file resps mr).attempts ≤ mr) ∧
    (∀ (pre : List (List HttpResp)) (f : List HttpResp)
      (post : List (List HttpResp)) (mr : Nat),
      (∀ g ∈ pre, (upload_file g mr).success = true) →
      (upload_file f mr).success = false →
      uploadAll mr (pre ++ f :: post) = (1, pre.length + 1)) := by
  refine ⟨by decide, ?_, upload_delays_chain, upload_delay_bounds, ?_, ?_, uploadAll_abort⟩
  · intro resps mr
    have h := upload_delays_shape resps mr 0 0
    rw [upload_file_start]
    rw [h]
    rw [List.length_map, List.length_range]
    apply List.map_congr_left
    intro i _
    rw [Nat.zero_add]
  · intro s rest mr hs
    simp [upload_file, upload_file_go, hs]
  · intro resps mr hmr
    rw [upload_file_start]
    exact upload_attempts_le resps mr 0 _ (by omega)

/-- C3 witness: the hypothesis-bearing parts at concrete inputs — a
membership delay bound, the terminal 404, the attempts cap, and the
aborting batch. -/
theorem upload_retry_policy_witness :
    (1 ∈ (upload_file [HttpResp.httpErr 503, HttpResp.httpErr 503, HttpResp.ok 200]
        5).delays ∧
      1 ≤ 1 ∧ 1 ≤ 30) ∧
    (retryable 404 = false ∧
      upload_file [HttpResp.httpErr 404] 5 = ⟨false, 404, 1, []⟩) ∧
    (1 ≤ 5 ∧
      (upload_file [HttpResp.httpErr 503, HttpResp.httpErr 503, HttpResp.httpErr 503,
        HttpResp.httpErr 503, HttpResp.httpErr 503, HttpResp.ok 200] 5).attempts ≤ 5) ∧
    uploadAll 5 [[HttpResp.ok 200], [HttpResp.httpErr 404], [HttpResp.ok 200]] =
      (1, 2) := by
  refine ⟨⟨by decide, upload_retry_policy.2.2.2.1
      [HttpResp.httpErr 503, HttpResp.httpErr 503, HttpResp.ok 200] 5 1 (by decide)⟩,
    ⟨by decide, upload_retry_policy.2.2.2.2.1 404 [] 5 (by decide)⟩,
    ⟨by decide, upload_retry_policy.2.2.2.2.2.1
      [HttpResp.httpErr 503, HttpResp.httpErr 503, HttpResp.httpErr 503,
       HttpResp.httpErr 503, HttpResp.httpErr 503, HttpResp.ok 200] 5 (by decide)⟩, ?_⟩
  have h := upload_retry_policy.2.2.2.2.2.2 [[HttpResp.ok 200]] [HttpResp.httpErr 404]
    [[HttpResp.ok 200]] 5 (by decide) (by decide)
  simpa using h
theorem pyReplaceGo_irrel (pat rep : List Char) :
    ∀ (n : Nat) (s : List Char) (m : Nat), s.length ≤ n → s.length ≤ m →
      pyReplaceGo pat rep n s = pyReplaceGo pat rep m s := by
  intro n
  induction n with
  | zero =>
    intro s m h _
    have hs : s = [] := List.length_eq_zero.mp (Nat.le_zero.mp h)
    subst hs
    cases m <;> simp [pyReplaceGo]
  | succ n ih =>
    intro s m h1 h2
    cases s with
    | nil => cases m <;> simp [pyReplaceGo]
    | cons c rest =>
      cases m with
      | zero => simp at h2
      | succ m' =>
        simp only [pyReplaceGo]
        by_cases hp : pat ≠ [] ∧ leadsWith pat (c :: rest) = true
        · rw [if_pos hp, if_pos hp]
          congr 1
          have hpl : 1 ≤ pat.length := by
            cases hq : pat with
            | nil => exact absurd hq hp.1
            | cons a as => simp
          apply ih
          · simp only [List.length_drop, List.length_cons]
            simp only [List.length_cons] at h1
            omega
          · simp only [List.length_drop, List.length_cons]
            simp only [List.length_cons] at h2
            omega
        · rw [if_neg hp, if_neg hp]
          congr 1
          apply ih
          · simp only [List.length_cons] at h1; omega
          · simp only [List.length_cons] at h2; omega

theorem pyReplaceL_cons (pat rep : List Char) (c : Char) (rest : List Char) :
    pyReplaceL pat rep (c :: rest) =
      if pat ≠ [] ∧ leadsWith pat (c :: rest) = true then
        rep ++ pyReplaceL pat rep ((c :: rest).drop pat.length)
      else c :: pyReplaceL pat rep rest := by
  show pyReplaceGo pat rep (c :: rest).length (c :: rest) = _
  simp only [List.length_cons, pyReplaceGo]
  by_cases hp : pat ≠ [] ∧ leadsWith pat (c :: rest) = true
  · rw [if_pos hp, if_pos hp]
    congr 1
    have hpl : 1 ≤ pat.length := by
      cases hq : pat with
      | nil => exact absurd hq hp.1
      | cons a as => simp
    apply pyReplaceGo_irrel
    · simp only [List.length_drop, List.length_cons]; omega
    · exact le_refl _
  · rw [if_neg hp, if_neg hp]
    rfl

theorem pyReplaceL_single (c : Char) (rep : List Char) (s : List Char) :
    pyReplaceL [c] rep s = s.flatMap (fun x => if x = c then rep else [x]) := by
  induction s with
  | nil => rfl
  | cons x rest ih =>
    rw [pyReplaceL_cons]
    by_cases hx : x = c
    · rw [if_pos ⟨by simp, by simp [leadsWith, hx]⟩]
      simp [hx, ih]
    · rw [if_neg]
      · simp [hx, ih]
      · intro hcontra
        have := hcontra.2
        simp [leadsWith] at this
        exact hx this.symm

theorem flatMap_cons_esc (f : Char → List Char) (c : Char) (t : List Char) :
    (c :: t).flatMap f = f c ++ t.flatMap f := by simp

theorem gupri_single_chain_eq (s : List Char) :
    pyReplaceL [('\r')] [('\\'), ('r')]
      (pyReplaceL [('\t')] [('\\'), ('t')]
        (pyReplaceL [('"')] [('\\'), ('"')]
          (pyReplaceL [('\\')] [('\\'), ('\\')] s))) = s.flatMap escCharGupri := by
  rw [pyReplaceL_single, pyReplaceL_single, pyReplaceL_single, pyReplaceL_single,
    List.flatMap_assoc, List.flatMap_assoc, List.flatMap_assoc]
  apply List.flatMap_congr
  intro x _
  by_cases h1 : x = ('\\')
  · subst h1; decide
  by_cases h2 : x = ('"')
  · subst h2; decide
  by_cases h3 : x = ('\t')
  · subst h3; decide
  by_cases h4 : x = ('\r')
  · subst h4; decide
  simp [escCharGupri, h1, h2, h3, h4]

theorem ttl_chain_eq (s : List Char) :
    pyReplaceL [('\t')] [('\\'), ('t')]
      (pyReplaceL [('\n')] [('\\'), ('n')]
        (pyReplaceL [('\r')] [('\\'), ('n')]
          (pyReplaceL [('"')] [('\\'), ('"')]
            (pyReplaceL [('\\')] [('\\'), ('\\')] s)))) = s.flatMap escCharTtl := by
  rw [pyReplaceL_single, pyReplaceL_single, pyReplaceL_single, pyReplaceL_single,
    pyReplaceL_single, List.flatMap_assoc, List.flatMap_assoc, List.flatMap_assoc,
    List.flatMap_assoc]
  apply List.flatMap_congr
  intro x _
  by_cases h1 : x = ('\\')
  · subst h1; decide
  by_cases h2 : x = ('"')
  · subst h2; decide
  by_cases h3 : x = ('\r')
  · subst h3; decide
  by_cases h4 : x = ('\n')
  · subst h4; decide
  by_cases h5 : x = ('\t')
  · subst h5; decide
  simp [escCharTtl, h1, h2, h3, h4, h5]

theorem goSF_gupri (s : List Char) :
    ∀ fuel : Nat, (s.flatMap escCharGupri).length + 1 ≤ fuel → ('\n') ∉ s →
      goSF fuel (s.flatMap escCharGupri ++ [('"')]) = some s := by
  induction s with
  | nil =>
    intro fuel hf _
    cases fuel with
    | zero => simp at hf
    | succ f => simp [goSF]
  | cons c t ih =>
    intro fuel hf h
    have hc : c ≠ ('\n') := fun he => h (he ▸ List.mem_cons_self c t)
    have ht : ('\n') ∉ t := fun hm => h (List.mem_cons_of_mem c hm)
    rw [flatMap_cons_esc] at hf ⊢
    rw [List.append_assoc]
    cases fuel with
    | zero =>
      simp only [List.length_append, List.length_cons] at hf
      omega
    | succ f =>
      have hlen : (t.flatMap escCharGupri).length + 1 ≤ f := by
        have h1 : 1 ≤ (escCharGupri c).length := by
          by_cases h1 : c = ('\\')
          · subst h1; decide
          by_cases h2 : c = ('"')
          · subst h2; decide
          by_cases h3 : c = ('\t')
          · subst h3; decide
          by_cases h4 : c = ('\r')
          · subst h4; decide
          · simp [escCharGupri, h1, h2, h3, h4]
        simp only [List.length_append] at hf
        omega
      have hrec := ih f hlen ht
      by_cases h1 : c = ('\\')
      · subst h1
        simp [escCharGupri, goSF, parseEsc, unescChar, hrec]
      by_cases h2 : c = ('"')
      · subst h2
        simp [escCharGupri, goSF, parseEsc, unescChar, hrec]
      by_cases h3 : c = ('\t')
      · subst h3
        simp [escCharGupri, goSF, parseEsc, unescChar, hrec]
      by_cases h4 : c = ('\r')
      · subst h4
        simp [escCharGupri, goSF, parseEsc, unescChar, hrec]
      · simp [escCharGupri, h1, h2, h3, h4, goSF, hc, hrec]

theorem goSF_ttl (s : List Char) :
    ∀ fuel : Nat, (s.flatMap escCharTtl).length + 1 ≤ fuel → ('\r') ∉ s →
      goSF fuel (s.flatMap escCharTtl ++ [('"')]) = some s := by
  induction s with
  | nil =>
    intro fuel hf _
    cases fuel with
    | zero => simp at hf
    | succ f => simp [goSF]
  | cons c t ih =>
    intro fuel hf h
    have hc : c ≠ ('\r') := fun he => h (he ▸ List.mem_cons_self c t)
    have ht : ('\r') ∉ t := fun hm => h (List.mem_cons_of_mem c hm)
    rw [flatMap_cons_esc] at hf ⊢
    rw [List.append_assoc]
    cases fuel with
    | zero =>
      simp only [List.length_append, List.length_cons] at hf
      omega
    | succ f =>
      have hlen : (t.flatMap escCharTtl).length + 1 ≤ f := by
        have h1 : 1 ≤ (escCharTtl c).length := by
          by_cases h1 : c = ('\\')
          · subst h1; decide
          by_cases h2 : c = ('"')
          · subst h2; decide
          by_cases h3 : c = ('\n')
          · subst h3; decide
          by_cases h4 : c = ('\t')
          · subst h4; decide
          · simp [escCharTtl, h1, h2, h3, h4, hc]
        simp only [List.length_append] at hf
        omega
      have hrec := ih f hlen ht
      by_cases h1 : c = ('\\')
      · subst h1
        simp [escCharTtl, goSF, parseEsc, unescChar, hrec]
      by_cases h2 : c = ('"')
      · subst h2
        simp [escCharTtl, goSF, parseEsc, unescChar, hrec]
      by_cases h3 : c = ('\n')
      · subst h3
        simp [escCharTtl, goSF, parseEsc, unescChar, hrec]
      by_cases h4 : c = ('\t')
      · subst h4
        simp [escCharTtl, goSF, parseEsc, unescChar, hrec]
      · simp [escCharTtl, h1, h2, h3, h4, goSF, hc, hrec]

theorem strData_append (a b : String) : (a ++ b).data = a.data ++ b.data := by
  cases a; cases b; rfl

theorem strMk_data (s : String) : String.mk s.data = s := by
  cases s; rfl

theorem not_mem_of_contains_false {c : Char} {s : List Char}
    (h : s.contains c = false) : c ∉ s := by
  induction s with
  | nil => simp
  | cons a t ih =>
    simp only [List.contains_cons, Bool.or_eq_false_iff] at h
    intro hm
    rcases List.mem_cons.mp hm with he | hm'
    · subst he
      simp at h
    · exact ih h.2 hm'

theorem parseTL_single (X : List Char) (hX : X.head? ≠ some ('"')) :
    parseTurtleLiteral (('"') :: (X ++ [('"')])) = goS (X ++ [('"')]) := by
  cases X with
  | nil => simp [parseTurtleLiteral, leadsWith]
  | cons x xs =>
    have hx : x ≠ ('"') := by
      intro he; exact hX (by simp [he])
    have hx' : ¬ (('"') = x) := fun he => hx he.symm
    simp [parseTurtleLiteral, leadsWith, hx']

theorem flatMap_gupri_head (s : List Char) :
    (s.flatMap escCharGupri).head? ≠ some ('"') := by
  cases s with
  | nil => simp
  | cons c t =>
    rw [flatMap_cons_esc]
    by_cases h1 : c = ('\\')
    · subst h1; simp [escCharGupri]
    by_cases h2 : c = ('"')
    · subst h2; simp [escCharGupri]
    by_cases h3 : c = ('\t')
    · subst h3; simp [escCharGupri]
    by_cases h4 : c = ('\r')
    · subst h4; simp [escCharGupri]
    · simp [escCharGupri, h1, h2, h3, h4]

theorem flatMap_ttl_head (s : List Char) :
    (s.flatMap escCharTtl).head? ≠ some ('"') := by
  cases s with
  | nil => simp
  | cons c t =>
    rw [flatMap_cons_esc]
    by_cases h1 : c = ('\\')
    · subst h1; simp [escCharTtl]
    by_cases h2 : c = ('"')
    · subst h2; simp [escCharTtl]
    by_cases h3 : c = ('\r')
    · subst h3; simp [escCharTtl]
    by_cases h4 : c = ('\n')
    · subst h4; simp [escCharTtl]
    by_cases h5 : c = ('\t')
    · subst h5; simp [escCharTtl]
    · simp [escCharTtl, h1, h2, h3, h4, h5]

theorem gupri_single_roundtrip (s : String)
    (hlf : s.data.contains ('\n') = false) (hcr : s.data.contains ('\r') = false) :
    parseTurtleLiteralS (escape_turtle_literal_gupri s) = some s := by
  unfold escape_turtle_literal_gupri
  rw [if_neg (by rw [hlf, hcr]; simp)]
  unfold parseTurtleLiteralS
  rw [strData_append, strData_append]
  have hM : (pyReplace
      (pyReplace
        (pyReplace (pyReplace s ("\\") ("\\\\")) ("\"") ("\\\""))
        ("\t") ("\\t"))
      ("\r") ("\\r")).data = s.data.flatMap escCharGupri := gupri_single_chain_eq s.data
  rw [hM]
  show (parseTurtleLiteral (('"') :: (s.data.flatMap escCharGupri ++ [('"')]))).map
    String.mk = some s
  rw [parseTL_single _ (flatMap_gupri_head s.data)]
  show (goSF (s.data.flatMap escCharGupri ++ [('"')]).length
    (s.data.flatMap escCharGupri ++ [('"')])).map String.mk = some s
  rw [goSF_gupri s.data _ (by simp) (not_mem_of_contains_false hlf)]
  simp [strMk_data]

theorem ttl_single_roundtrip (s : String) (hcr : s.data.contains ('\r') = false) :
    parseTurtleLiteralS (("\"") ++ escape_turtle_literal s ++ ("\"")) = some s := by
  unfold escape_turtle_literal parseTurtleLiteralS
  rw [strData_append, strData_append]
  have hM : (pyReplace
      (pyReplace
        (pyReplace
          (pyReplace (pyReplace s ("\\") ("\\\\")) ("\"") ("\\\""))
          ("\r") ("\\n"))
        ("\n") ("\\n"))
      ("\t") ("\\t")).data = s.data.flatMap escCharTtl := ttl_chain_eq s.data
  rw [hM]
  show (parseTurtleLiteral (('"') :: (s.data.flatMap escCharTtl ++ [('"')]))).map
    String.mk = some s
  rw [parseTL_single _ (flatMap_ttl_head s.data)]
  show (goSF (s.data.flatMap escCharTtl ++ [('"')]).length
    (s.data.flatMap escCharTtl ++ [('"')])).map String.mk = some s
  rw [goSF_ttl s.data _ (by simp) (not_mem_of_contains_false hcr)]
  simp [strMk_data]

theorem leadsWith_q_flatMap (t : List Char) :
    leadsWith [('"')] (t.flatMap bsDouble) = leadsWith [('"')] t := by
  cases t with
  | nil => simp
  | cons d r =>
    rw [flatMap_cons_esc]
    by_cases hd : d = ('\\')
    · subst hd
      simp [bsDouble, leadsWith]
    · simp [bsDouble, hd, leadsWith]

theorem leadsWith_qq_flatMap (t : List Char) :
    leadsWith [('"'), ('"')] (t.flatMap bsDouble) = leadsWith [('"'), ('"')] t := by
  cases t with
  | nil => simp
  | cons d r =>
    rw [flatMap_cons_esc]
    by_cases hd : d = ('\\')
    · subst hd
      simp [bsDouble, leadsWith]
    · by_cases hq : d = ('"')
      · subst hq
        simp [bsDouble, leadsWith, leadsWith_q_flatMap r]
      · have hqc : ¬ (('"') = d) := fun h => hq h.symm
        simp [bsDouble, hd, leadsWith, hqc]

theorem leadsWith_qqq_flatMap (t : List Char) :
    leadsWith [('"'), ('"'), ('"')] (t.flatMap bsDouble) =
      leadsWith [('"'), ('"'), ('"')] t := by
  cases t with
  | nil => simp
  | cons d r =>
    rw [flatMap_cons_esc]
    by_cases hd : d = ('\\')
    · subst hd
      simp [bsDouble, leadsWith]
    · by_cases hq : d = ('"')
      · subst hq
        simp [bsDouble, leadsWith, leadsWith_qq_flatMap r]
      · have hqc : ¬ (('"') = d) := fun h => hq h.symm
        simp [bsDouble, hd, leadsWith, hqc]

theorem escLong_cons_notTriple (c : Char) (r : List Char)
    (h : ¬ (c = ('"') ∧ leadsWith [('"'), ('"')] r = true)) :
    escLong (c :: r) = esc1 c ++ escLong r := by
  match r with
  | [] => simp [escLong]
  | [c₂] => simp [escLong]
  | c₂ :: c₃ :: t =>
    rw [escLong]
    rw [if_neg]
    intro hcontra
    exact h ⟨hcontra.1, by simp [leadsWith, hcontra.2.1, hcontra.2.2]⟩

theorem escLong_triple (t : List Char) :
    escLong (('"') :: ('"') :: ('"') :: t) =
      ('\\') :: ('"') :: ('\\') :: ('"') :: ('\\') :: ('"') :: escLong t := by
  rw [escLong, if_pos ⟨rfl, rfl, rfl⟩]

theorem rep3_escLong : ∀ (n : Nat) (s : List Char), s.length ≤ n →
    pyReplaceL [('"'), ('"'), ('"')] [('\\'), ('"'), ('\\'), ('"'), ('\\'), ('"')]
      (s.flatMap bsDouble) = escLong s := by
  intro n
  induction n with
  | zero =>
    intro s h
    have hs : s = [] := List.length_eq_zero.mp (Nat.le_zero.mp h)
    subst hs
    rfl
  | succ n ih =>
    intro s hlen
    cases s with
    | nil => rfl
    | cons c t =>
      by_cases htr : leadsWith [('"'), ('"'), ('"')] (c :: t) = true
      · match t, htr with
        | c₂ :: c₃ :: t₃, htr =>
          simp only [leadsWith, Bool.and_eq_true, decide_eq_true_eq] at htr
          obtain ⟨h1, h2, h3, _⟩ := htr
          subst h1; subst h2; subst h3
          rw [flatMap_cons_esc, flatMap_cons_esc, flatMap_cons_esc]
          rw [show bsDouble ('"') = [('"')] from rfl]
          simp only [List.cons_append, List.nil_append]
          rw [pyReplaceL_cons]
          rw [if_pos ⟨by simp, by simp [leadsWith]⟩]
          rw [show (([('"'), ('"'), ('"')] : List Char)).length = 3 from rfl]
          simp only [List.drop_succ_cons, List.drop_zero]
          rw [ih t₃ (by simp only [List.length_cons] at hlen; omega)]
          rw [escLong_triple]
          rfl
        | [c₂], htr => simp [leadsWith] at htr
        | [], htr => simp [leadsWith] at htr
      · have hnotriple : ¬ (c = ('"') ∧ leadsWith [('"'), ('"')] t = true) := by
          intro ⟨hc, hq⟩
          subst hc
          simp [leadsWith, hq] at htr
        rw [escLong_cons_notTriple c t hnotriple]
        rw [flatMap_cons_esc]
        by_cases hbs : c = ('\\')
        · subst hbs
          rw [show bsDouble ('\\') = [('\\'), ('\\')] from rfl]
          simp only [List.cons_append, List.nil_append]
          rw [pyReplaceL_cons, if_neg (by intro h; simpa [leadsWith] using h.2)]
          rw [pyReplaceL_cons, if_neg (by intro h; simpa [leadsWith] using h.2)]
          rw [ih t (by simp only [List.length_cons] at hlen; omega)]
          rfl
        · rw [show bsDouble c = [c] from by simp [bsDouble, hbs]]
          have hcond : leadsWith [('"'), ('"'), ('"')] (c :: t.flatMap bsDouble) = false := by
            by_cases hq : c = ('"')
            · subst hq
              have htrans := leadsWith_qqq_flatMap (('"') :: t)
              rw [flatMap_cons_esc] at htrans
              rw [show bsDouble ('"') = [('"')] from rfl] at htrans
              simp only [List.cons_append, List.nil_append] at htrans
              rw [htrans]
              cases hv : leadsWith [('"'), ('"'), ('"')] (('"') :: t)
              · rfl
              · exact absurd hv htr
            · have hqc : ¬ (('"') = c) := fun h => hq h.symm
              simp [leadsWith, hqc]
          rw [List.cons_append, List.nil_append]
          rw [pyReplaceL_cons, if_neg (by intro h; rw [hcond] at h; exact Bool.false_ne_true h.2)]
          rw [ih t (by simp only [List.length_cons] at hlen; omega)]
          rw [show esc1 c = [c] from by simp [esc1, hbs]]
          rfl

theorem goLF_term (n : Nat) :
    goLF (n + 1) [('"'), ('"'), ('"')] = some [] := by
  simp [goLF, leadsWith]

theorem goLF_escq (n : Nat) (Z : List Char) :
    goLF (n + 1) (('\\') :: ('"') :: Z) = (goLF n Z).map (fun t => ('"') :: t) := by
  simp [goLF, parseEsc, unescChar]

theorem goLF_escbs (n : Nat) (Z : List Char) :
    goLF (n + 1) (('\\') :: ('\\') :: Z) = (goLF n Z).map (fun t => ('\\') :: t) := by
  simp [goLF, parseEsc, unescChar]

theorem goLF_plain (n : Nat) (c : Char) (Z : List Char)
    (hq : c ≠ ('"')) (hbs : c ≠ ('\\')) :
    goLF (n + 1) (c :: Z) = (goLF n Z).map (fun t => c :: t) := by
  simp [goLF, hq, hbs]

theorem goLF_q1 (n : Nat) (Z : List Char) (h2 : leadsWith [('"')] Z = false) :
    goLF (n + 1) (('"') :: Z) = (goLF n Z).map (fun t => ('"') :: t) := by
  have h3 : leadsWith [('"'), ('"')] Z = false := by
    cases Z with
    | nil => rfl
    | cons y ys =>
      simp only [leadsWith, Bool.and_true] at h2
      simp [leadsWith, h2]
  simp [goLF, h2, h3]

theorem goLF_qq (n : Nat) (Z : List Char) (h2 : leadsWith [('"')] Z = false) :
    goLF (n + 1) (('"') :: ('"') :: Z) =
      (goLF n Z).map (fun t => ('"') :: ('"') :: t) := by
  have h3 : leadsWith [('"'), ('"')] (('"') :: Z) = false := by
    simp [leadsWith, h2]
  have h1 : leadsWith [('"')] (('"') :: Z) = true := by
    simp [leadsWith]
  simp [goLF, h3, h1]

theorem escLong_not_quote_head (d : Char) (r X : List Char) (hd : d ≠ ('"')) :
    leadsWith [('"')] (escLong (d :: r) ++ X) = false := by
  rw [escLong_cons_notTriple d r (fun h => hd h.1)]
  by_cases hbs : d = ('\\')
  · subst hbs
    simp [esc1, leadsWith]
  · rw [show esc1 d = [d] from by simp [esc1, hbs]]
    have hqc : ¬ (('"') = d) := fun h => hd h.symm
    simp [leadsWith, hqc]

theorem lastNotQuote_tail (c : Char) (r : List Char) (h : lastNotQuote (c :: r)) :
    lastNotQuote r := by
  cases r with
  | nil => simp [lastNotQuote]
  | cons y r' => simpa [lastNotQuote, List.getLast?_cons_cons] using h

theorem goLF_escLong : ∀ (n : Nat) (s : List Char), s.length ≤ n →
    ∀ fuel : Nat, (escLong s).length + 3 ≤ fuel → lastNotQuote s →
    goLF fuel (escLong s ++ [('"'), ('"'), ('"')]) = some s := by
  intro n
  induction n with
  | zero =>
    intro s hn fuel hf _
    have hs : s = [] := List.length_eq_zero.mp (Nat.le_zero.mp hn)
    subst hs
    obtain ⟨m, rfl⟩ : ∃ m, fuel = m + 1 := ⟨fuel - 1, by omega⟩
    simpa [escLong] using goLF_term m
  | succ n ih =>
    intro s hn fuel hf hlast
    cases s with
    | nil =>
      obtain ⟨m, rfl⟩ : ∃ m, fuel = m + 1 := ⟨fuel - 1, by omega⟩
      simpa [escLong] using goLF_term m
    | cons c r =>
      by_cases htr : c = ('"') ∧ leadsWith [('"'), ('"')] r = true
      · obtain ⟨hc, hlw⟩ := htr
        subst hc
        match r, hlw with
        | [], hlw => simp [leadsWith] at hlw
        | [c₂], hlw => simp [leadsWith] at hlw
        | c₂ :: c₃ :: t, hlw =>
          simp only [leadsWith, Bool.and_eq_true, decide_eq_true_eq] at hlw
          obtain ⟨h2, h3, _⟩ := hlw
          subst h2; subst h3
          cases t with
          | nil => simp [lastNotQuote] at hlast
          | cons x t' =>
            have hlast' : lastNotQuote (x :: t') :=
              lastNotQuote_tail _ _ (lastNotQuote_tail _ _ (lastNotQuote_tail _ _ hlast))
            have hL : (escLong (('"') :: ('"') :: ('"') :: x :: t')).length
                = 6 + (escLong (x :: t')).length := by
              rw [escLong_triple]
              simp only [List.length_cons]
              omega
            rw [escLong_triple]
            simp only [List.cons_append]
            obtain ⟨m, rfl⟩ : ∃ m, fuel = m + 1 := ⟨fuel - 1, by omega⟩
            rw [goLF_escq]
            obtain ⟨m₂, rfl⟩ : ∃ m₂, m = m₂ + 1 := ⟨m - 1, by omega⟩
            rw [goLF_escq]
            obtain ⟨m₃, rfl⟩ : ∃ m₃, m₂ = m₃ + 1 := ⟨m₂ - 1, by omega⟩
            rw [goLF_escq]
            rw [ih (x :: t') (by simp only [List.length_cons] at hn ⊢; omega)
              m₃ (by omega) hlast']
            rfl
      · rw [escLong_cons_notTriple c r htr]
        by_cases hbs : c = ('\\')
        · subst hbs
          have hlast' : lastNotQuote r := lastNotQuote_tail _ _ hlast
          have hL : (escLong (('\\') :: r)).length = 2 + (escLong r).length := by
            rw [escLong_cons_notTriple _ _ htr]
            simp [esc1]
            omega
          rw [show esc1 ('\\') = [('\\'), ('\\')] from by decide]
          simp only [List.cons_append, List.nil_append]
          obtain ⟨m, rfl⟩ : ∃ m, fuel = m + 1 := ⟨fuel - 1, by omega⟩
          rw [goLF_escbs]
          rw [ih r (by simp only [List.length_cons] at hn; omega) m (by omega) hlast']
          rfl
        · by_cases hq : c = ('"')
          · subst hq
            cases r with
            | nil => simp [lastNotQuote] at hlast
            | cons d r' =>
              have hlast' : lastNotQuote (d :: r') := lastNotQuote_tail _ _ hlast
              by_cases hd : d = ('"')
              · subst hd
                have hlw2 : leadsWith [('"')] r' = false := by
                  cases hv : leadsWith [('"')] r'
                  · rfl
                  · exact absurd ⟨rfl, by simp [leadsWith, hv]⟩ htr
                cases r' with
                | nil => simp [lastNotQuote] at hlast
                | cons e r'' =>
                  have he : ('"') ≠ e := by
                    intro hcontra
                    rw [show leadsWith [('"')] (e :: r'')
                        = (decide (('"') = e) && true) from rfl] at hlw2
                    simp [hcontra.symm] at hlw2
                  have hene : e ≠ ('"') := fun h => he h.symm
                  have hnt2 : ¬ (('"') = ('"') ∧ leadsWith [('"'), ('"')] (e :: r'') = true) := by
                    intro ⟨_, hcontra⟩
                    rw [show leadsWith [('"'), ('"')] (e :: r'')
                        = (decide (('"') = e) && leadsWith [('"')] r'') from rfl] at hcontra
                    simp [fun h => he h] at hcontra
                  have hlast'' : lastNotQuote (e :: r'') := lastNotQuote_tail _ _ hlast'
                  have hL : (escLong (('"') :: ('"') :: e :: r'')).length
                      = 2 + (escLong (e :: r'')).length := by
                    rw [escLong_cons_notTriple _ _ htr, escLong_cons_notTriple _ _ hnt2]
                    simp [esc1]
                    omega
                  rw [escLong_cons_notTriple _ _ hnt2]
                  rw [show esc1 ('"') = [('"')] from by decide]
                  simp only [List.cons_append, List.nil_append]
                  obtain ⟨m, rfl⟩ : ∃ m, fuel = m + 1 := ⟨fuel - 1, by omega⟩
                  rw [goLF_qq m _ (escLong_not_quote_head e r'' _ hene)]
                  rw [ih (e :: r'') (by simp only [List.length_cons] at hn ⊢; omega)
                    m (by omega) hlast'']
                  rfl
              · have hL : (escLong (('"') :: d :: r')).length
                    = 1 + (escLong (d :: r')).length := by
                  rw [escLong_cons_notTriple _ _ htr]
                  simp [esc1]
                  omega
                rw [show esc1 ('"') = [('"')] from by decide]
                simp only [List.cons_append, List.nil_append]
                obtain ⟨m, rfl⟩ : ∃ m, fuel = m + 1 := ⟨fuel - 1, by omega⟩
                rw [goLF_q1 m _ (escLong_not_quote_head d r' _ hd)]
                rw [ih (d :: r') (by simp only [List.length_cons] at hn ⊢; omega)
                  m (by omega) hlast']
                rfl
          · have hlast' : lastNotQuote r := lastNotQuote_tail _ _ hlast
            have hL : (escLong (c :: r)).length = 1 + (escLong r).length := by
              rw [escLong_cons_notTriple _ _ htr]
              simp [esc1, hbs]
              omega
            rw [show esc1 c = [c] from by simp [esc1, hbs]]
            simp only [List.cons_append, List.nil_append]
            obtain ⟨m, rfl⟩ : ∃ m, fuel = m + 1 := ⟨fuel - 1, by omega⟩
            rw [goLF_plain m c _ hq hbs]
            rw [ih r (by simp only [List.length_cons] at hn; omega) m (by omega) hlast']
            rfl

theorem gupri_multiline_roundtrip (s : String)
    (hml : (s.data.contains ('\n') || s.data.contains ('\r')) = true)
    (hlast : lastNotQuote s.data) :
    parseTurtleLiteralS (escape_turtle_literal_gupri s) = some s := by
  unfold escape_turtle_literal_gupri
  rw [if_pos hml]
  unfold parseTurtleLiteralS
  rw [strData_append, strData_append]
  have hbs : pyReplaceL [('\\')] [('\\'), ('\\')] s.data = s.data.flatMap bsDouble := by
    rw [pyReplaceL_single]
    apply List.flatMap_congr
    intro x _
    simp [bsDouble]
  have hM : (pyReplace (pyReplace s ("\\") ("\\\\")) ("\"\"\"") ("\\\"\\\"\\\"")).data
      = escLong s.data := by
    show pyReplaceL [('"'), ('"'), ('"')]
        [('\\'), ('"'), ('\\'), ('"'), ('\\'), ('"')]
        (pyReplaceL [('\\')] [('\\'), ('\\')] s.data) = escLong s.data
    rw [hbs]
    exact rep3_escLong s.data.length s.data (Nat.le_refl _)
  rw [hM]
  show (parseTurtleLiteral (('"') :: ('"') :: ('"') ::
      (escLong s.data ++ [('"'), ('"'), ('"')]))).map String.mk = some s
  have hP : parseTurtleLiteral (('"') :: ('"') :: ('"') ::
      (escLong s.data ++ [('"'), ('"'), ('"')]))
      = goL (escLong s.data ++ [('"'), ('"'), ('"')]) := by
    simp [parseTurtleLiteral, leadsWith, List.drop_succ_cons, List.drop_zero]
  rw [hP]
  unfold goL
  rw [goLF_escLong s.data.length s.data (Nat.le_refl _) _
    (by simp [List.length_append]) hlast]
  simp [strMk_data]

/-- C6 (counterexample): the claimed universal round-trip fails.  For the
triple-quoted (gupri) escaper, the input consisting of a letter, a newline
and a final double quote — which contains quotes and an embedded newline,
squarely inside the claim's scope — escapes to a block whose content ends
in an unescaped `"` adjacent to the closing `"""`, which no conformant
Turtle parser accepts as one literal: parsing returns `none`, not the
original bytes.  For the single-line escaper of `generate_cmc_ttl.py`, a
carriage return is escaped as `\n`, so parsing yields a line feed instead
of the original CR: the original bytes are not recovered. -/
theorem turtle_escape_not_roundtrip :
    parseTurtleLiteralS (escape_turtle_literal_gupri ("a\n\"")) = none ∧
    (("a\n\"").data.contains ('\n') = true ∧ ("a\n\"").data.contains ('"') = true) ∧
    (parseTurtleLiteralS (("\"") ++ escape_turtle_literal ("a\r") ++ ("\"")) =
        some ("a\n") ∧
      ("a\n" : String) ≠ ("a\r")) := by
  refine ⟨by decide, ⟨by decide, by decide⟩, by decide, by decide⟩

/-- C6 (amended): the round-trip does hold on these domains.  (i) A string
with no LF and no CR takes the single-line branch of the gupri escaper and
round-trips through a conformant Turtle parser.  (ii) A string containing
LF or CR whose last character is not `"` takes the triple-quoted branch
and round-trips.  The last-character condition is sufficient, not
necessary: it excludes the counterexample's lone trailing quote, while
some quote-ending multiline strings (one ending in a full `"""` run,
say) also round-trip.  (iii) A string with no CR, wrapped in quotes after
`escape_turtle_literal` of `generate_cmc_ttl.py`, round-trips (CR is
excluded because that escaper rewrites CR to the `\n` escape). -/
theorem turtle_escape_roundtrip_amended :
    (∀ s : String, s.data.contains ('\n') = false → s.data.contains ('\r') = false →
      parseTurtleLiteralS (escape_turtle_literal_gupri s) = some s) ∧
    (∀ s : String, (s.data.contains ('\n') || s.data.contains ('\r')) = true →
      s.data.getLast? ≠ some ('"') →
      parseTurtleLiteralS (escape_turtle_literal_gupri s) = some s) ∧
    (∀ s : String, s.data.contains ('\r') = false →
      parseTurtleLiteralS (("\"") ++ escape_turtle_literal s ++ ("\"")) = some s) :=
  ⟨fun s h1 h2 => gupri_single_roundtrip s h1 h2,
   fun s h1 h2 => gupri_multiline_roundtrip s h1 h2,
   fun s h => ttl_single_roundtrip s h⟩

/-- Witness for the amended C6 round-trip at concrete inputs exercising
all three branches: a plain string, a string with an embedded newline and
a quote, and a string with a backslash, a quote and a tab. -/
theorem turtle_escape_roundtrip_amended_witness :
    parseTurtleLiteralS (escape_turtle_literal_gupri ("a\"b\\c")) = some ("a\"b\\c") ∧
    parseTurtleLiteralS (escape_turtle_literal_gupri ("a\n\"b\\c")) = some ("a\n\"b\\c") ∧
    parseTurtleLiteralS (("\"") ++ escape_turtle_literal ("a\"b\\c\td\ne") ++ ("\"")) =
      some ("a\"b\\c\td\ne") :=
  ⟨turtle_escape_roundtrip_amended.1 ("a\"b\\c") (by decide) (by decide),
   turtle_escape_roundtrip_amended.2.1 ("a\n\"b\\c") (by decide) (by decide),
   turtle_escape_roundtrip_amended.2.2 ("a\"b\\c\td\ne") (by decide)⟩
